import Mathlib

set_option maxRecDepth 100000
set_option exponentiation.threshold 4096

namespace TaxTrack

-- ===========================================================================
-- Part 1. float64 arithmetic (IEEE-754 binary64, round to nearest, ties to even)
--
-- Every amount in the service is a Go `float64`.  A value is NaN, an infinity,
-- or a finite number `(-1)^neg * m * 2^e`.  The canonical form of a finite
-- double has `m < 2^53`, `-1074 ≤ e ≤ 971`, and `2^52 ≤ m` unless `e = -1074`;
-- rounding always returns it, so on the values the service computes structural
-- equality is equality of doubles (with `+0` and `-0` kept apart, as in the bit
-- pattern).  None of the expressions of the service is of the shape `x*y + z`,
-- so no fused multiply-add can replace two roundings by one.
-- ===========================================================================

/-- A Go `float64` value. -/
inductive F64 where
  | nan : F64
  | inf (neg : Bool) : F64
  | fin (neg : Bool) (m : Nat) (e : Int) : F64
  deriving DecidableEq, Repr

namespace F64

/-- The signed zero: `+0` for `false`, `-0` for `true`. -/
def signedZero (neg : Bool) : F64 := fin neg 0 (-1074)

/-- The constant `0` of the source (`+0`). -/
def zero : F64 := signedZero false

/-- Worker for `bits`: the recursion is on the fuel. -/
def bitsAux : Nat → Nat → Nat
  | 0, _ => 0
  | fuel + 1, n => if n = 0 then 0 else bitsAux fuel (n / 2) + 1

/-- Number of binary digits of `n` (`0` for `0`). -/
def bits (n : Nat) : Nat := bitsAux n n

/-- The integer `k` with `2^k ≤ n/d < 2^(k+1)`, for `n, d > 0`. -/
def ilog2 (n d : Nat) : Int :=
  let k : Int := (bits n : Int) - (bits d : Int)
  if d * 2 ^ k.toNat ≤ n * 2 ^ (-k).toNat then k else k - 1

/-- The integer nearest to `num/den`, a tie going to the even neighbour. -/
def roundHalfEven (num den : Nat) : Nat :=
  let q := num / den
  let r := num % den
  if 2 * r < den then q else if den < 2 * r then q + 1 else if q % 2 = 0 then q else q + 1

/-- Round the positive rational `n/d` to the nearest double (ties to even), with
the given sign: gradual underflow below `2^-1022`, overflow to infinity. -/
def roundPos (neg : Bool) (n d : Nat) : F64 :=
  let e : Int := max (ilog2 n d - 52) (-1074)
  let m := roundHalfEven (n * 2 ^ (-e).toNat) (d * 2 ^ e.toNat)
  let m1 := if m = 2 ^ 53 then 2 ^ 52 else m
  let e1 := if m = 2 ^ 53 then e + 1 else e
  if e1 > 971 then inf neg else fin neg m1 e1

/-- The double nearest to `± n/d`: how a decimal literal of the source, or a
number of a JSON document, becomes a `float64`. -/
def ofRatio (neg : Bool) (n d : Nat) : F64 :=
  if n = 0 then signedZero neg else roundPos neg n d

/-- The double of a natural-number constant. -/
def ofNat (n : Nat) : F64 := ofRatio false n 1

/-- A natural number with a sign, as an integer. -/
def signed (neg : Bool) (n : Nat) : Int := if neg then -(n : Int) else (n : Int)

/-- Float64 `x + y`. -/
def add : F64 → F64 → F64
  | nan, _ => nan
  | _, nan => nan
  | inf s, inf t => if s = t then inf s else nan
  | inf s, fin _ _ _ => inf s
  | fin _ _ _, inf t => inf t
  | fin s m1 e1, fin t m2 e2 =>
    let e := min e1 e2
    let c : Int := signed s (m1 * 2 ^ (e1 - e).toNat) + signed t (m2 * 2 ^ (e2 - e).toNat)
    if c = 0 then signedZero (s && t)
    else roundPos (decide (c < 0)) (c.natAbs * 2 ^ e.toNat) (2 ^ (-e).toNat)

/-- Float64 `x * y`. -/
def mul : F64 → F64 → F64
  | nan, _ => nan
  | _, nan => nan
  | inf s, inf t => inf (xor s t)
  | inf s, fin t m _ => if m = 0 then nan else inf (xor s t)
  | fin s m _, inf t => if m = 0 then nan else inf (xor s t)
  | fin s m1 e1, fin t m2 e2 =>
    if m1 * m2 = 0 then signedZero (xor s t)
    else roundPos (xor s t) (m1 * m2 * 2 ^ (e1 + e2).toNat) (2 ^ (-(e1 + e2)).toNat)

/-- Float64 `x / y`: `0/0` is NaN and `x/0` an infinity, never a trap. -/
def div : F64 → F64 → F64
  | nan, _ => nan
  | _, nan => nan
  | inf _, inf _ => nan
  | inf s, fin t _ _ => inf (xor s t)
  | fin s _ _, inf t => signedZero (xor s t)
  | fin s m1 e1, fin t m2 e2 =>
    if m2 = 0 then (if m1 = 0 then nan else inf (xor s t))
    else if m1 = 0 then signedZero (xor s t)
    else roundPos (xor s t) (m1 * 2 ^ (e1 - e2).toNat) (m2 * 2 ^ (e2 - e1).toNat)

/-- Float64 `x <= y` (false when either side is NaN). -/
def le : F64 → F64 → Bool
  | nan, _ => false
  | _, nan => false
  | inf true, _ => true
  | _, inf false => true
  | inf false, _ => false
  | _, inf true => false
  | fin s m1 e1, fin t m2 e2 =>
    decide (signed s (m1 * 2 ^ (e1 - min e1 e2).toNat) ≤ signed t (m2 * 2 ^ (e2 - min e1 e2).toNat))

/-- Float64 `x < y` (false when either side is NaN). -/
def lt : F64 → F64 → Bool
  | nan, _ => false
  | _, nan => false
  | inf s, inf t => s && !t
  | inf s, fin _ _ _ => s
  | fin _ _ _, inf t => !t
  | fin s m1 e1, fin t m2 e2 =>
    decide (signed s (m1 * 2 ^ (e1 - min e1 e2).toNat) < signed t (m2 * 2 ^ (e2 - min e1 e2).toNat))

/-- Go's `math.Round`: the nearest integer, halves rounded away from zero;
NaN, the infinities and the signed zeros are returned unchanged. -/
def round : F64 → F64
  | nan => nan
  | inf s => inf s
  | fin s m e =>
    if e ≥ 0 then fin s m e
    else
      let t := (2 * m + 2 ^ (-e).toNat) / (2 * 2 ^ (-e).toNat)
      if t = 0 then signedZero s else roundPos s t 1

/-- Two decimal digits, zero padded. -/
def pad2 (n : Nat) : String := if n < 10 then "0" ++ toString n else toString n

/-- Go's `fmt.Sprintf("%.2f", x)`: the exact value rounded to two decimals
(ties to even), `NaN`, `+Inf` and `-Inf` for the special values. -/
def format2 : F64 → String
  | nan => "NaN"
  | inf false => "+Inf"
  | inf true => "-Inf"
  | fin s m e =>
    let c := roundHalfEven (m * 100 * 2 ^ e.toNat) (2 ^ (-e).toNat)
    (if s then "-" else "") ++ toString (c / 100) ++ "." ++ pad2 (c % 100)

/-- Whether the value is a finite number. -/
def isFinite : F64 → Bool
  | fin _ _ _ => true
  | _ => false

/-- The exact rational value of a finite double (`0` for NaN and infinities,
which callers exclude with `isFinite`). -/
def val : F64 → ℚ
  | fin s m e => mkRat (signed s (m * 2 ^ e.toNat)) (2 ^ (-e).toNat)
  | _ => 0

/-- The sign of a double as a rational factor. -/
def sgn (s : Bool) : ℚ := if s then -1 else 1

/-- The exponent at which `roundPos` rounds `n/d`. -/
def expOf (n d : Nat) : Int := max (ilog2 n d - 52) (-1074)

/-- A finite double with the sign bit clear. -/
def NonNeg (x : F64) : Prop := ∃ m e, x = fin false m e

end F64

-- ===========================================================================
-- Part 2. Go maps
--
-- A Go map is a finite association with distinct keys.  `range` enumerates it
-- in an unspecified order that may change from one loop to the next, so every
-- loop over a map takes the enumeration it sees as an argument.
-- ===========================================================================

/-- The map assignment `m[k] = v`. -/
def GoMap.set {α : Type} : List (String × α) → String → α → List (String × α)
  | [], k, v => [(k, v)]
  | (k1, v1) :: m, k, v => if k1 = k then (k1, v) :: m else (k1, v1) :: GoMap.set m k v

/-- The map lookup `v, ok := m[k]`. -/
def GoMap.get? {α : Type} : List (String × α) → String → Option α
  | [], _ => none
  | (k1, v1) :: m, k => if k1 = k then some v1 else GoMap.get? m k

/-- The expression `m[k]` on a `map[string]float64`: the zero value when the
key is absent. -/
def GoMap.index (m : List (String × F64)) (k : String) : F64 :=
  (GoMap.get? m k).getD F64.zero

-- ===========================================================================
-- Part 3. The service (main.go, tax.go, auth.go)
-- ===========================================================================

/-- A row of `tax_records` as `GetTaxHistory` scans it. -/
structure TaxRecord where
  totalTaxPaid : F64
  education : F64
  healthcare : F64
  defense : F64
  infrastructure : F64
  other : F64
  createdAt : String
  deriving DecidableEq

/-- The JSON bodies the handlers write. -/
inductive Body where
  | error (msg : String)
  | message (msg : String)
  | token (t : String)
  | budget (data : List (String × F64))
  | budgetDistribution (totalTaxPaid : F64) (distributedTax : List (String × String))
  | taxDistribution (year : Nat) (distribution : List (String × F64))
  | noHistory (msg : String)
  | taxHistory (records : List TaxRecord)
  | notFound
  deriving DecidableEq

/-- An HTTP response: status code and body. -/
structure Response where
  status : Nat
  body : Body
  deriving DecidableEq

/-- A statement sent to the database by `db.Exec`. -/
inductive DbCall where
  | insertTaxRecord (userID : String) (totalTaxPaid education healthcare defense
      infrastructure other : F64)
  deriving DecidableEq

/-- The variable `sectorDistribution` of tax.go: the fixed percentage table. -/
def sectorDistribution : List (String × F64) :=
  [("Education", F64.ofRatio false 15 100),
   ("Healthcare", F64.ofRatio false 20 100),
   ("Defense", F64.ofRatio false 30 100),
   ("Infrastructure", F64.ofRatio false 25 100),
   ("Other", F64.ofRatio false 10 100)]

/-- The rounding tolerance of the specification: every amount is a finite number and
the exact sum of the amounts differs from `total` by at most `0.01` per category. -/
def amountsWithin (total : F64) (amounts : List F64) : Prop :=
  (∀ a ∈ amounts, a.isFinite = true)
  ∧ |(amounts.map F64.val).sum - total.val| ≤ (amounts.length : ℚ) / 100

/-- The specification's `round_half_away_from_zero`, to the nearest integer. -/
def roundHalfAwayFromZero (x : ℚ) : Int :=
  if 0 ≤ x then ⌊x + 1 / 2⌋ else -⌊-x + 1 / 2⌋

/-- The two-decimal rendering of an amount given as a whole number of cents. -/
def renderCents (c : Int) : String :=
  (if c < 0 then "-" else "") ++ toString (c.natAbs / 100) ++ "." ++ F64.pad2 (c.natAbs % 100)

/-- The outcome of `loadBudgetData`: `log.Fatalf` ends the process (the message
is kept without its error detail), otherwise the parsed mapping is installed as
`budgetData`. -/
inductive LoadResult where
  | fatal (msg : String)
  | loaded (budgetData : List (String × F64))
  deriving DecidableEq

/-- The function `loadBudgetData` of main.go.  `readFile` is what
`ioutil.ReadFile("budget.json")` returns (`none` for an error) and `unmarshal`
is `json.Unmarshal` into a `map[string]float64` (`none` for an error). -/
def loadBudgetData (readFile : Option String)
    (unmarshal : String → Option (List (String × F64))) : LoadResult :=
  match readFile with
  | none => .fatal "Error reading budget.json"
  | some data =>
    match unmarshal data with
    | none => .fatal "Error parsing budget.json"
    | some m => .loaded m

/-- The first loop of `BudgetBasedTaxDistributionHandler`:
`totalBudget += amount` over the enumeration `sumOrder` of `budgetData`. -/
def totalBudget (sumOrder : List (String × F64)) : F64 :=
  sumOrder.foldl (fun acc kv => F64.add acc kv.2) F64.zero

/-- The variable `roundedAmount` of the second loop:
`math.Round((allocation / totalBudget) * total * 100) / 100`. -/
def roundedAmount (allocation totalBudget totalTaxPaid : F64) : F64 :=
  let percentage := F64.div allocation totalBudget
  let rawAmount := F64.mul percentage totalTaxPaid
  F64.div (F64.round (F64.mul rawAmount (F64.ofNat 100))) (F64.ofNat 100)

/-- The variable `formattedAmount`: `fmt.Sprintf("₹%.2f", roundedAmount)`. -/
def formattedAmount (rounded : F64) : String := "₹" ++ F64.format2 rounded

/-- The second loop of `BudgetBasedTaxDistributionHandler` over the
enumeration `allocOrder` of `budgetData`, filling the map `distributedTax`. -/
def distributedTax (totalBudget totalTaxPaid : F64) (allocOrder : List (String × F64)) :
    List (String × String) :=
  allocOrder.foldl
    (fun m kv => GoMap.set m kv.1 (formattedAmount (roundedAmount kv.2 totalBudget totalTaxPaid)))
    []

/-- The handler `BudgetBasedTaxDistributionHandler` of main.go.  `bind` is the
field `total_tax_paid` when `ShouldBindJSON` succeeds; `sumOrder` and
`allocOrder` are the enumerations of `budgetData` seen by the two loops. -/
def BudgetBasedTaxDistributionHandler (bind : Option F64)
    (sumOrder allocOrder : List (String × F64)) : Response :=
  match bind with
  | none => ⟨400, .error "Invalid input"⟩
  | some totalTaxPaid =>
    if F64.le totalTaxPaid F64.zero then
      ⟨400, .error "Tax amount must be greater than zero"⟩
    else
      ⟨200, .budgetDistribution totalTaxPaid
        (distributedTax (totalBudget sumOrder) totalTaxPaid allocOrder)⟩

/-- The loop of `TaxDistributionHandler` over the enumeration `order` of
`sectorDistribution`: `distribution[sector] = total * percentage`. -/
def distribution (totalTaxPaid : F64) (order : List (String × F64)) : List (String × F64) :=
  order.foldl (fun m kv => GoMap.set m kv.1 (F64.mul totalTaxPaid kv.2)) []

/-- The handler `TaxDistributionHandler` of tax.go.  `userID` is the context
value set by the middleware, `bind` the field `total_tax_paid` when
`ShouldBindJSON` succeeds, `order` the enumeration of `sectorDistribution`, and
`execOk` whether `db.Exec` succeeds.  Returns the response and the statements
sent to the database. -/
def TaxDistributionHandler (userID : Option String) (bind : Option F64)
    (order : List (String × F64)) (execOk : Bool) : Response × List DbCall :=
  match userID with
  | none => (⟨401, .error "Unauthorized access"⟩, [])
  | some uid =>
    match bind with
    | none => (⟨400, .error "Invalid request format"⟩, [])
    | some totalTaxPaid =>
      let d := distribution totalTaxPaid order
      let call := DbCall.insertTaxRecord uid totalTaxPaid
        (GoMap.index d "Education") (GoMap.index d "Healthcare") (GoMap.index d "Defense")
        (GoMap.index d "Infrastructure") (GoMap.index d "Other")
      if execOk then (⟨200, .taxDistribution 2024 d⟩, [call])
      else (⟨500, .error "Failed to save tax data"⟩, [call])

/-- The handler `GetTaxHistory` of tax.go.  `query` is the outcome of
`db.Query` (`none` for an error); a row is `none` when `rows.Scan` fails on it. -/
def GetTaxHistory (userID : Option String) (query : Option (List (Option TaxRecord))) :
    Response :=
  match userID with
  | none => ⟨401, .error "Unauthorized access"⟩
  | some _ =>
    match query with
    | none => ⟨500, .error "Failed to fetch tax records"⟩
    | some rows =>
      let taxRecords := rows.filterMap id
      if taxRecords.length = 0 then ⟨200, .noHistory "No tax history found"⟩
      else ⟨200, .taxHistory taxRecords⟩

/-- The handler `SignupHandler` of main.go. -/
def SignupHandler : Response := ⟨200, .message "Signup successful"⟩

/-- The handler `LoginHandler` of main.go; `generateJWT` is `GenerateJWT` of
auth.go (`none` when signing fails). -/
def LoginHandler (generateJWT : String → Option String) : Response :=
  match generateJWT "11" with
  | none => ⟨500, .error "Could not generate token"⟩
  | some t => ⟨200, .token t⟩

/-- What `jwt.ParseWithClaims` and the two type assertions of `AuthMiddleware`
yield for a token string. -/
inductive ParsedToken where
  | invalid
  | foreignClaims
  | claims (userID : Option String)
  deriving DecidableEq

/-- Go's `strings.TrimPrefix(s, "Bearer ")`. -/
def trimBearer (s : String) : String :=
  if s.startsWith "Bearer " then s.drop 7 else s

/-- The middleware `AuthMiddleware` of auth.go on the `Authorization` header
(`""` when the header is absent): the response it aborts with, or the
`userID` it stores in the context before `c.Next()`. -/
def AuthMiddleware (parseJWT : String → ParsedToken) (authorization : String) :
    Except Response String :=
  if authorization = "" then .error ⟨401, .error "Missing token"⟩
  else
    match parseJWT (trimBearer authorization) with
    | .invalid => .error ⟨401, .error "Invalid token"⟩
    | .foreignClaims => .error ⟨401, .error "Invalid claims"⟩
    | .claims none => .error ⟨401, .error "Invalid user ID"⟩
    | .claims (some userID) => .ok userID

/-- The handlers registered in `main`. -/
inductive Handler where
  | signup
  | login
  | budget
  | taxHistory
  | taxDistribution
  | budgetTaxDistribution
  deriving DecidableEq

/-- The route table built in `main`: the handler of a method and path, and
whether the route belongs to the group `authRoutes`, which runs
`AuthMiddleware` first. -/
def routes (method path : String) : Option (Handler × Bool) :=
  if method = "POST" ∧ path = "/api/signup" then some (.signup, false)
  else if method = "POST" ∧ path = "/api/login" then some (.login, false)
  else if method = "GET" ∧ path = "/api/budget" then some (.budget, false)
  else if method = "GET" ∧ path = "/api/tax-history" then some (.taxHistory, true)
  else if method = "POST" ∧ path = "/api/tax-distribution" then some (.taxDistribution, true)
  else if method = "POST" ∧ path = "/api/budget-tax-distribution" then
    some (.budgetTaxDistribution, true)
  else none

/-- An incoming request, as far as the handlers read it. -/
structure Request where
  method : String
  path : String
  authorization : String
  bind : Option F64

/-- Everything outside the handlers that a request depends on. -/
structure Env where
  parseJWT : String → ParsedToken
  generateJWT : String → Option String
  budgetData : List (String × F64)
  sumOrder : List (String × F64)
  allocOrder : List (String × F64)
  sectorOrder : List (String × F64)
  execOk : Bool
  query : Option (List (Option TaxRecord))

/-- Run a handler with the context value `userID`. -/
def runHandler (env : Env) (h : Handler) (userID : Option String) (req : Request) :
    Response × List DbCall :=
  match h with
  | .signup => (SignupHandler, [])
  | .login => (LoginHandler env.generateJWT, [])
  | .budget => (⟨200, .budget env.budgetData⟩, [])
  | .taxHistory => (GetTaxHistory userID env.query, [])
  | .taxDistribution => TaxDistributionHandler userID req.bind env.sectorOrder env.execOk
  | .budgetTaxDistribution =>
    (BudgetBasedTaxDistributionHandler req.bind env.sumOrder env.allocOrder, [])

/-- The router of `main`: an unknown route is a 404, a route of `authRoutes`
passes through `AuthMiddleware`, the handler runs last. -/
def serve (env : Env) (req : Request) : Response × List DbCall :=
  match routes req.method req.path with
  | none => (⟨404, .notFound⟩, [])
  | some (h, false) => runHandler env h none req
  | some (h, true) =>
    match AuthMiddleware env.parseJWT req.authorization with
    | .error resp => (resp, [])
    | .ok userID => runHandler env h (some userID) req

-- Sample inputs used by the concrete instances below.

/-- A token checker that accepts exactly the token `good` for user `11`. -/
def sampleParseJWT (s : String) : ParsedToken :=
  if s = "good" then .claims (some "11") else .invalid

/-- A sample budget table `A:1, B:3`. -/
def sampleBudget : List (String × F64) := [("A", F64.ofNat 1), ("B", F64.ofNat 3)]

/-- A sample environment: the table `A:1, B:3`, a database that accepts writes. -/
def sampleEnv : Env :=
  Env.mk sampleParseJWT (fun _ => some "t") sampleBudget sampleBudget sampleBudget
    sectorDistribution true (some [])

-- ===========================================================================
-- Part 4. Lemmas on Go maps and on the control flow of the handlers
-- ===========================================================================

theorem GoMap.set_of_not_mem {α : Type} (m : List (String × α)) (k : String) (v : α)
    (h : k ∉ m.map Prod.fst) : GoMap.set m k v = m ++ [(k, v)] := by
  induction m with
  | nil => rfl
  | cons a m ih =>
    obtain ⟨k1, v1⟩ := a
    simp only [List.map_cons, List.mem_cons, not_or] at h
    have hne : ¬ k1 = k := fun e => h.1 e.symm
    simp [GoMap.set, hne, ih h.2]

theorem GoMap.foldl_set_of_nodup {α β : Type} (f : β → α) (order : List (String × β))
    (acc : List (String × α))
    (hn : (order.map Prod.fst).Nodup)
    (hd : ∀ k ∈ order.map Prod.fst, k ∉ acc.map Prod.fst) :
    order.foldl (fun m kv => GoMap.set m kv.1 (f kv.2)) acc
      = acc ++ order.map (fun kv => (kv.1, f kv.2)) := by
  induction order generalizing acc with
  | nil => simp
  | cons a order ih =>
    simp only [List.map_cons, List.nodup_cons] at hn
    simp only [List.foldl_cons, List.map_cons]
    have ha : a.1 ∉ acc.map Prod.fst := hd a.1 (by simp)
    rw [GoMap.set_of_not_mem acc a.1 (f a.2) ha, ih _ hn.2]
    · simp
    · intro k hk
      simp only [List.map_append, List.map_cons, List.map_nil, List.mem_append,
        List.mem_singleton, not_or]
      refine ⟨hd k (by simp [List.mem_cons, Or.inr hk] at *; exact Or.inr hk), ?_⟩
      intro e
      exact hn.1 (e ▸ hk)

theorem GoMap.get?_map {α β : Type} (f : β → α) (l : List (String × β)) (k : String) :
    GoMap.get? (l.map (fun kv => (kv.1, f kv.2))) k = (GoMap.get? l k).map f := by
  induction l with
  | nil => rfl
  | cons a l ih =>
    obtain ⟨k1, v1⟩ := a
    by_cases h : k1 = k <;> simp [GoMap.get?, h, ih]

theorem GoMap.get?_perm {α : Type} {l1 l2 : List (String × α)} (hp : l1.Perm l2)
    (hn : (l1.map Prod.fst).Nodup) (k : String) : GoMap.get? l1 k = GoMap.get? l2 k := by
  induction hp with
  | nil => rfl
  | cons a _ ih =>
    obtain ⟨k1, v1⟩ := a
    simp only [List.map_cons, List.nodup_cons] at hn
    by_cases h : k1 = k <;> simp [GoMap.get?, h, ih hn.2]
  | swap a b l =>
    obtain ⟨k1, v1⟩ := a
    obtain ⟨k2, v2⟩ := b
    simp only [List.map_cons, List.nodup_cons, List.mem_cons, not_or] at hn
    by_cases h1 : k1 = k <;> by_cases h2 : k2 = k <;> simp [GoMap.get?, h1, h2]
    exact absurd (h2.trans h1.symm) hn.1.1
  | trans h12 _ ih1 ih2 =>
    rw [ih1 hn, ih2 ((h12.map Prod.fst).nodup_iff.mp hn)]

theorem GoMap.get?_of_mem {α : Type} {l : List (String × α)} (hn : (l.map Prod.fst).Nodup)
    {k : String} {v : α} (h : (k, v) ∈ l) : GoMap.get? l k = some v := by
  induction l with
  | nil => simp at h
  | cons a l ih =>
    obtain ⟨k1, v1⟩ := a
    simp only [List.map_cons, List.nodup_cons] at hn
    rcases List.mem_cons.mp h with h | h
    · cases h; simp [GoMap.get?]
    · have hne : ¬ k1 = k := by
        intro e
        exact hn.1 (e ▸ List.mem_map_of_mem Prod.fst h)
      simp [GoMap.get?, hne, ih hn.2 h]

theorem distributedTax_eq_map (W T : F64) (order : List (String × F64))
    (hn : (order.map Prod.fst).Nodup) :
    distributedTax W T order
      = order.map (fun kv => (kv.1, formattedAmount (roundedAmount kv.2 W T))) := by
  unfold distributedTax
  rw [GoMap.foldl_set_of_nodup (fun w => formattedAmount (roundedAmount w W T)) order [] hn
    (by simp)]
  simp

theorem distribution_eq_map (T : F64) (order : List (String × F64))
    (hn : (order.map Prod.fst).Nodup) :
    distribution T order = order.map (fun kv => (kv.1, F64.mul T kv.2)) := by
  unfold distribution
  rw [GoMap.foldl_set_of_nodup (fun w => F64.mul T w) order [] hn (by simp)]
  simp

theorem keys_map_snd {α β : Type} (f : β → α) (l : List (String × β)) :
    (l.map (fun kv => (kv.1, f kv.2))).map Prod.fst = l.map Prod.fst := by
  simp [List.map_map, Function.comp_def]

theorem F64.le_zero_of_pos (x : F64) (h : F64.lt F64.zero x = true) :
    F64.le x F64.zero = false := by
  cases x with
  | nan => simp [F64.lt, F64.zero, F64.signedZero] at h
  | inf s =>
    cases s <;> simp [F64.lt, F64.le, F64.zero, F64.signedZero] at h ⊢
  | fin s m e =>
    simp only [F64.lt, F64.le, F64.zero, F64.signedZero, decide_eq_true_eq,
      decide_eq_false_iff_not, not_le] at h ⊢
    rw [min_comm]
    simpa [F64.signed] using h

theorem F64.not_pos_of_le_zero (x : F64) (h : F64.le x F64.zero = true) :
    F64.lt F64.zero x = false := by
  cases hx : F64.lt F64.zero x
  · rfl
  · rw [F64.le_zero_of_pos x hx] at h
    exact absurd h (by simp)

theorem handler_of_pos (total : F64) (sumOrder allocOrder : List (String × F64))
    (h : F64.lt F64.zero total = true) :
    BudgetBasedTaxDistributionHandler (some total) sumOrder allocOrder
      = ⟨200, .budgetDistribution total
          (distributedTax (totalBudget sumOrder) total allocOrder)⟩ := by
  simp [BudgetBasedTaxDistributionHandler, F64.le_zero_of_pos total h]

-- ===========================================================================
-- Part 5. Error bounds of the float64 operations
--
-- Each operation on non-negative finite doubles returns the exact result rounded
-- to nearest: the error is at most `2^-53` of the exact result, or at most
-- `2^-1075` in the subnormal range.
-- ===========================================================================

namespace F64

theorem bitsAux_zero (fuel : Nat) : bitsAux fuel 0 = 0 := by
  cases fuel <;> simp [bitsAux]

theorem bitsAux_spec (fuel n : Nat) (h : n ≤ fuel) (hn : 0 < n) :
    2 ^ (bitsAux fuel n - 1) ≤ n ∧ n < 2 ^ bitsAux fuel n := by
  induction fuel generalizing n with
  | zero => omega
  | succ fuel ih =>
    have hne : n ≠ 0 := by omega
    simp only [bitsAux, hne, if_false, Nat.add_sub_cancel]
    by_cases h2 : n / 2 = 0
    · have h1 : n = 1 := by omega
      subst h1
      simp [bitsAux_zero]
    · obtain ⟨hlo, hhi⟩ := ih (n / 2) (by omega) (by omega)
      have hb : 1 ≤ bitsAux fuel (n / 2) := by
        by_contra hc
        have h0 : bitsAux fuel (n / 2) = 0 := by omega
        rw [h0] at hhi
        simp at hhi
        exact h2 hhi
      have hpow : 2 ^ bitsAux fuel (n / 2) = 2 * 2 ^ (bitsAux fuel (n / 2) - 1) := by
        rw [← pow_succ']
        congr 1
        omega
      constructor
      · omega
      · rw [pow_succ]
        omega

theorem bits_spec (n : Nat) (hn : 0 < n) : 2 ^ (bits n - 1) ≤ n ∧ n < 2 ^ bits n :=
  bitsAux_spec n n (le_refl n) hn

theorem bits_pos (n : Nat) (hn : 0 < n) : 1 ≤ bits n := by
  by_contra hc
  have h0 : bits n = 0 := by omega
  have := (bits_spec n hn).2
  rw [h0] at this
  omega

/-- A power of two with an integer exponent, as a quotient of natural powers. -/
theorem two_zpow_eq (k : Int) :
    (2 : ℚ) ^ k = (2 : ℚ) ^ k.toNat / (2 : ℚ) ^ (-k).toNat := by
  rcases le_total 0 k with h | h
  · have h1 : (-k).toNat = 0 := by omega
    rw [h1, pow_zero, div_one, ← zpow_natCast, Int.toNat_of_nonneg h]
  · have h1 : k.toNat = 0 := by omega
    have h2 : ((-k).toNat : Int) = -k := Int.toNat_of_nonneg (by omega)
    rw [h1, pow_zero, one_div, ← zpow_natCast, h2, zpow_neg, inv_inv]

theorem ilog2_spec (n d : Nat) (hn : 0 < n) (hd : 0 < d) :
    (2 : ℚ) ^ ilog2 n d ≤ (n : ℚ) / d ∧ (n : ℚ) / d < (2 : ℚ) ^ (ilog2 n d + 1) := by
  have hdq : (0 : ℚ) < d := by exact_mod_cast hd
  have hnq : (0 : ℚ) < n := by exact_mod_cast hn
  obtain ⟨hnlo, hnhi⟩ := bits_spec n hn
  obtain ⟨hdlo, hdhi⟩ := bits_spec d hd
  have hbn := bits_pos n hn
  have hbd := bits_pos d hd
  have hnlo' : (2 : ℚ) ^ ((bits n : Int) - 1) ≤ n := by
    have : ((bits n : Int) - 1) = ((bits n - 1 : Nat) : Int) := by omega
    rw [this, zpow_natCast]
    exact_mod_cast hnlo
  have hnhi' : (n : ℚ) < (2 : ℚ) ^ (bits n : Int) := by
    rw [zpow_natCast]
    exact_mod_cast hnhi
  have hdlo' : (2 : ℚ) ^ ((bits d : Int) - 1) ≤ d := by
    have : ((bits d : Int) - 1) = ((bits d - 1 : Nat) : Int) := by omega
    rw [this, zpow_natCast]
    exact_mod_cast hdlo
  have hdhi' : (d : ℚ) < (2 : ℚ) ^ (bits d : Int) := by
    rw [zpow_natCast]
    exact_mod_cast hdhi
  have h2 : (0 : ℚ) < 2 := by norm_num
  have hcond : ∀ k : Int, (d * 2 ^ k.toNat ≤ n * 2 ^ (-k).toNat) ↔ (2 : ℚ) ^ k ≤ (n : ℚ) / d := by
    intro k
    rw [two_zpow_eq k, div_le_div_iff₀ (by positivity) hdq]
    constructor
    · intro h
      have : ((d * 2 ^ k.toNat : Nat) : ℚ) ≤ ((n * 2 ^ (-k).toNat : Nat) : ℚ) := by
        exact_mod_cast h
      push_cast at this
      linarith
    · intro h
      have : ((d * 2 ^ k.toNat : Nat) : ℚ) ≤ ((n * 2 ^ (-k).toNat : Nat) : ℚ) := by
        push_cast
        linarith
      exact_mod_cast this
  unfold ilog2
  simp only
  split_ifs with hc
  · refine ⟨(hcond _).mp hc, ?_⟩
    rw [div_lt_iff₀ hdq]
    calc (n : ℚ) < (2 : ℚ) ^ (bits n : Int) := hnhi'
      _ = (2 : ℚ) ^ ((bits n : Int) - (bits d : Int) + 1) * (2 : ℚ) ^ ((bits d : Int) - 1) := by
          rw [← zpow_add₀ (by norm_num : (2 : ℚ) ≠ 0)]
          congr 1
          ring
      _ ≤ (2 : ℚ) ^ ((bits n : Int) - (bits d : Int) + 1) * d := by
          apply mul_le_mul_of_nonneg_left hdlo'
          positivity
  · have hc' := mt (hcond _).mpr hc
    push_neg at hc'
    constructor
    · rw [le_div_iff₀ hdq]
      calc (2 : ℚ) ^ ((bits n : Int) - (bits d : Int) - 1) * d
          ≤ (2 : ℚ) ^ ((bits n : Int) - (bits d : Int) - 1) * (2 : ℚ) ^ (bits d : Int) := by
            apply mul_le_mul_of_nonneg_left hdhi'.le
            positivity
        _ = (2 : ℚ) ^ ((bits n : Int) - 1) := by
            rw [← zpow_add₀ (by norm_num : (2 : ℚ) ≠ 0)]
            congr 1
            ring
        _ ≤ n := hnlo'
    · have : (bits n : Int) - (bits d : Int) - 1 + 1 = (bits n : Int) - (bits d : Int) := by ring
      rw [this]
      exact hc'

end F64

namespace F64

theorem val_fin (s : Bool) (m : Nat) (e : Int) :
    val (fin s m e) = sgn s * m * (2 : ℚ) ^ e := by
  show mkRat (signed s (m * 2 ^ e.toNat)) (2 ^ (-e).toNat) = _
  unfold signed sgn
  rw [Rat.mkRat_eq_div, two_zpow_eq e]
  have h : ((2 : ℚ) ^ (-e).toNat) ≠ 0 := by positivity
  cases s <;> field_simp

theorem roundHalfEven_spec (num den : Nat) (hden : 0 < den) :
    |((roundHalfEven num den : Nat) : ℚ) - (num : ℚ) / den| ≤ 1 / 2 := by
  have hdq : (0 : ℚ) < den := by exact_mod_cast hden
  have hdiv : (num : ℚ) = den * (num / den : Nat) + (num % den : Nat) := by
    exact_mod_cast (Nat.div_add_mod num den).symm
  have hr : ((num % den : Nat) : ℚ) < den := by exact_mod_cast Nat.mod_lt num hden
  have hr0 : (0 : ℚ) ≤ ((num % den : Nat) : ℚ) := by positivity
  have hq : (num : ℚ) / den = (num / den : Nat) + ((num % den : Nat) : ℚ) / den := by
    field_simp
    linarith
  unfold roundHalfEven
  simp only
  rw [abs_le]
  split_ifs with h1 h2 h3
  · have h1' : 2 * ((num % den : Nat) : ℚ) < den := by exact_mod_cast h1
    rw [hq]
    have : ((num % den : Nat) : ℚ) / den < 1 / 2 := by
      rw [div_lt_iff₀ hdq]; linarith
    have : 0 ≤ ((num % den : Nat) : ℚ) / den := by positivity
    constructor <;> linarith
  · have h2' : (den : ℚ) < 2 * ((num % den : Nat) : ℚ) := by exact_mod_cast h2
    rw [hq]
    have : 1 / 2 < ((num % den : Nat) : ℚ) / den := by
      rw [lt_div_iff₀ hdq]; linarith
    have : ((num % den : Nat) : ℚ) / den < 1 := by
      rw [div_lt_iff₀ hdq]; linarith
    push_cast
    constructor <;> linarith
  · have he : 2 * (num % den) = den := by omega
    have he' : 2 * ((num % den : Nat) : ℚ) = den := by exact_mod_cast he
    rw [hq]
    have : ((num % den : Nat) : ℚ) / den = 1 / 2 := by
      rw [div_eq_iff hdq.ne']; linarith
    constructor <;> linarith
  · have he : 2 * (num % den) = den := by omega
    have he' : 2 * ((num % den : Nat) : ℚ) = den := by exact_mod_cast he
    rw [hq]
    have : ((num % den : Nat) : ℚ) / den = 1 / 2 := by
      rw [div_eq_iff hdq.ne']; linarith
    push_cast
    constructor <;> linarith

theorem roundPos_spec (s : Bool) (n d : Nat) (hn : 0 < n) (hd : 0 < d)
    (hlt : (n : ℚ) / d < (2 : ℚ) ^ (1023 : Int)) :
    ∃ m e, roundPos s n d = fin s m e ∧
      |(m : ℚ) * (2 : ℚ) ^ e - (n : ℚ) / d| ≤ (2 : ℚ) ^ (expOf n d - 1) := by
  have hdq : (0 : ℚ) < d := by exact_mod_cast hd
  obtain ⟨hklo, -⟩ := ilog2_spec n d hn hd
  have hk : ilog2 n d < 1023 := by
    have := lt_of_le_of_lt hklo hlt
    exact (zpow_lt_zpow_iff_right₀ (by norm_num : (1 : ℚ) < 2)).mp this
  have hE : expOf n d ≤ 970 := by
    unfold expOf
    omega
  have hden : 0 < d * 2 ^ (expOf n d).toNat := by positivity
  have hround := roundHalfEven_spec (n * 2 ^ (-(expOf n d)).toNat) (d * 2 ^ (expOf n d).toNat) hden
  have hquot : (((n * 2 ^ (-(expOf n d)).toNat : Nat) : ℚ)) / ((d * 2 ^ (expOf n d).toNat : Nat) : ℚ)
      = (n : ℚ) / d / (2 : ℚ) ^ (expOf n d) := by
    rw [two_zpow_eq (expOf n d)]
    push_cast
    field_simp
  rw [hquot] at hround
  have hpos : (0 : ℚ) < (2 : ℚ) ^ (expOf n d) := by positivity
  have herr : ∀ m : Nat, |(m : ℚ) - (n : ℚ) / d / (2 : ℚ) ^ (expOf n d)| ≤ 1 / 2 →
      |(m : ℚ) * (2 : ℚ) ^ (expOf n d) - (n : ℚ) / d| ≤ (2 : ℚ) ^ (expOf n d - 1) := by
    intro m hm
    have h1 : (m : ℚ) * (2 : ℚ) ^ (expOf n d) - (n : ℚ) / d
        = ((m : ℚ) - (n : ℚ) / d / (2 : ℚ) ^ (expOf n d)) * (2 : ℚ) ^ (expOf n d) := by
      field_simp
      ring
    rw [h1, abs_mul, abs_of_pos hpos, zpow_sub_one₀ (by norm_num : (2 : ℚ) ≠ 0)]
    calc |(m : ℚ) - (n : ℚ) / d / (2 : ℚ) ^ (expOf n d)| * (2 : ℚ) ^ (expOf n d)
        ≤ 1 / 2 * (2 : ℚ) ^ (expOf n d) := mul_le_mul_of_nonneg_right hm hpos.le
      _ = (2 : ℚ) ^ (expOf n d) * 2⁻¹ := by ring
  have hfold : max (ilog2 n d - 52) (-1074) = expOf n d := rfl
  unfold roundPos
  simp only [hfold]
  by_cases hm : roundHalfEven (n * 2 ^ (-(expOf n d)).toNat) (d * 2 ^ (expOf n d).toNat) = 2 ^ 53
  · have hgt : ¬ (expOf n d + 1 > 971) := by omega
    simp only [hm, if_true, hgt, if_false]
    refine ⟨2 ^ 52, expOf n d + 1, rfl, ?_⟩
    have h := herr _ hround
    rw [hm] at h
    have h2 : ((2 ^ 52 : Nat) : ℚ) * (2 : ℚ) ^ (expOf n d + 1)
        = ((2 ^ 53 : Nat) : ℚ) * (2 : ℚ) ^ (expOf n d) := by
      rw [zpow_add_one₀ (by norm_num : (2 : ℚ) ≠ 0)]
      push_cast
      ring
    rw [h2]
    exact h
  · have hgt : ¬ (expOf n d > 971) := by omega
    simp only [hm, if_false, hgt]
    exact ⟨_, _, rfl, herr _ hround⟩

end F64

namespace F64

theorem NonNeg.val_nonneg {x : F64} (h : NonNeg x) : 0 ≤ val x := by
  obtain ⟨m, e, rfl⟩ := h
  rw [val_fin]
  simp only [sgn, Bool.false_eq_true, if_false, one_mul]
  positivity

theorem NonNeg.isFinite {x : F64} (h : NonNeg x) : x.isFinite = true := by
  obtain ⟨m, e, rfl⟩ := h
  rfl

theorem nonNeg_signedZero : NonNeg (signedZero false) := ⟨0, -1074, rfl⟩

theorem val_signedZero (s : Bool) : val (signedZero s) = 0 := by
  unfold signedZero
  rw [val_fin]
  simp

theorem expOf_bound (n d : Nat) (hn : 0 < n) (hd : 0 < d) :
    (2 : ℚ) ^ (expOf n d - 1) ≤ (n : ℚ) / d / 2 ^ 53 + 1 / 2 ^ 1075
    ∧ ((2 : ℚ) ^ (-1022 : Int) ≤ (n : ℚ) / d → (2 : ℚ) ^ (expOf n d - 1) ≤ (n : ℚ) / d / 2 ^ 53) := by
  obtain ⟨hlo, hhi⟩ := ilog2_spec n d hn hd
  have hq : (0 : ℚ) < (n : ℚ) / d := by positivity
  have hnormal : -1074 ≤ ilog2 n d - 52 → (2 : ℚ) ^ (expOf n d - 1) ≤ (n : ℚ) / d / 2 ^ 53 := by
    intro h
    have hE : expOf n d = ilog2 n d - 52 := by unfold expOf; omega
    have h1 : expOf n d - 1 = ilog2 n d + (-53) := by omega
    rw [h1, zpow_add₀ (by norm_num : (2 : ℚ) ≠ 0)]
    have h2 : (2 : ℚ) ^ (-53 : Int) = 1 / 2 ^ 53 := by
      rw [zpow_neg, one_div]
      norm_cast
    rw [h2, mul_one_div]
    exact div_le_div_of_nonneg_right hlo (by positivity)
  constructor
  · rcases le_or_lt (-1074) (ilog2 n d - 52) with h | h
    · have := hnormal h
      have h3 : (0 : ℚ) ≤ 1 / 2 ^ 1075 := by positivity
      linarith
    · have hE : expOf n d = -1074 := by unfold expOf; omega
      have h1 : (2 : ℚ) ^ (expOf n d - 1) = 1 / 2 ^ 1075 := by
        rw [hE]
        have : (-1074 - 1 : Int) = -1075 := by norm_num
        rw [this, zpow_neg, one_div]
        norm_cast
      rw [h1]
      have : (0 : ℚ) ≤ (n : ℚ) / d / 2 ^ 53 := by positivity
      linarith
  · intro hbig
    apply hnormal
    have := lt_of_le_of_lt hbig hhi
    have := (zpow_lt_zpow_iff_right₀ (by norm_num : (1 : ℚ) < 2)).mp this
    omega

/-- Rounding a positive rational below `2^1023`: the result is a non-negative finite
double within half a unit in the last place. -/
theorem roundPos_nonneg (n d : Nat) (hn : 0 < n) (hd : 0 < d) (q : ℚ)
    (hq : (n : ℚ) / d = q) (hlt : q < (2 : ℚ) ^ (1023 : Int)) :
    NonNeg (roundPos false n d)
    ∧ |val (roundPos false n d) - q| ≤ q / 2 ^ 53 + 1 / 2 ^ 1075
    ∧ ((2 : ℚ) ^ (-1022 : Int) ≤ q → |val (roundPos false n d) - q| ≤ q / 2 ^ 53) := by
  subst hq
  obtain ⟨m, e, hr, herr⟩ := roundPos_spec false n d hn hd hlt
  obtain ⟨hb1, hb2⟩ := expOf_bound n d hn hd
  have hv : val (roundPos false n d) = (m : ℚ) * (2 : ℚ) ^ e := by
    rw [hr, val_fin]
    simp [sgn]
  rw [hv]
  exact ⟨⟨m, e, hr⟩, le_trans herr hb1, fun h => le_trans herr (hb2 h)⟩

end F64

namespace F64

theorem val_fin_false (m : Nat) (e : Int) : val (fin false m e) = (m : ℚ) * (2 : ℚ) ^ e := by
  rw [val_fin]
  simp [sgn]

theorem mul_spec {x y : F64} (hx : NonNeg x) (hy : NonNeg y)
    (hlt : val x * val y < (2 : ℚ) ^ (1023 : Int)) :
    NonNeg (mul x y)
    ∧ |val (mul x y) - val x * val y| ≤ val x * val y / 2 ^ 53 + 1 / 2 ^ 1075 := by
  obtain ⟨m1, e1, rfl⟩ := hx
  obtain ⟨m2, e2, rfl⟩ := hy
  rw [val_fin_false, val_fin_false] at hlt ⊢
  simp only [mul, Bool.xor_false]
  by_cases h0 : m1 * m2 = 0
  · simp only [h0, if_true]
    have hz : (m1 : ℚ) * (m2 : ℚ) = 0 := by exact_mod_cast h0
    have hprod : (m1 : ℚ) * (2 : ℚ) ^ e1 * ((m2 : ℚ) * (2 : ℚ) ^ e2) = 0 := by
      have : (m1 : ℚ) * (2 : ℚ) ^ e1 * ((m2 : ℚ) * (2 : ℚ) ^ e2)
          = (m1 : ℚ) * (m2 : ℚ) * ((2 : ℚ) ^ e1 * (2 : ℚ) ^ e2) := by ring
      rw [this, hz, zero_mul]
    rw [hprod, val_signedZero]
    exact ⟨nonNeg_signedZero, by norm_num⟩
  · simp only [h0, if_false]
    have hq : (((m1 * m2 * 2 ^ (e1 + e2).toNat : Nat) : ℚ)) / ((2 ^ (-(e1 + e2)).toNat : Nat) : ℚ)
        = (m1 : ℚ) * (2 : ℚ) ^ e1 * ((m2 : ℚ) * (2 : ℚ) ^ e2) := by
      have h2 : (2 : ℚ) ^ e1 * (2 : ℚ) ^ e2 = (2 : ℚ) ^ (e1 + e2) :=
        (zpow_add₀ (by norm_num : (2 : ℚ) ≠ 0) e1 e2).symm
      have : (m1 : ℚ) * (2 : ℚ) ^ e1 * ((m2 : ℚ) * (2 : ℚ) ^ e2)
          = (m1 : ℚ) * (m2 : ℚ) * ((2 : ℚ) ^ e1 * (2 : ℚ) ^ e2) := by ring
      rw [this, h2, two_zpow_eq (e1 + e2)]
      push_cast
      ring
    have hn : 0 < m1 * m2 * 2 ^ (e1 + e2).toNat := by
      have : 0 < m1 * m2 := Nat.pos_of_ne_zero h0
      positivity
    obtain ⟨h1, h2, -⟩ := roundPos_nonneg _ _ hn (by positivity) _ hq hlt
    exact ⟨h1, h2⟩

theorem div_spec {x y : F64} (hx : NonNeg x) (hy : NonNeg y) (hpos : 0 < val y)
    (hlt : val x / val y < (2 : ℚ) ^ (1023 : Int)) :
    NonNeg (div x y)
    ∧ |val (div x y) - val x / val y| ≤ val x / val y / 2 ^ 53 + 1 / 2 ^ 1075
    ∧ ((2 : ℚ) ^ (-1022 : Int) ≤ val x / val y →
        |val (div x y) - val x / val y| ≤ val x / val y / 2 ^ 53) := by
  obtain ⟨m1, e1, rfl⟩ := hx
  obtain ⟨m2, e2, rfl⟩ := hy
  rw [val_fin_false] at hpos
  rw [val_fin_false, val_fin_false] at hlt ⊢
  have hm2 : m2 ≠ 0 := by
    rintro rfl
    simp at hpos
  simp only [div, Bool.xor_false, hm2, if_false]
  by_cases h0 : m1 = 0
  · subst h0
    simp only [if_true, val_signedZero]
    refine ⟨nonNeg_signedZero, by simp, ?_⟩
    intro _
    simp
  · simp only [h0, if_false]
    have hq : (((m1 * 2 ^ (e1 - e2).toNat : Nat) : ℚ)) / ((m2 * 2 ^ (e2 - e1).toNat : Nat) : ℚ)
        = (m1 : ℚ) * (2 : ℚ) ^ e1 / ((m2 : ℚ) * (2 : ℚ) ^ e2) := by
      have h2 : (2 : ℚ) ^ e1 / (2 : ℚ) ^ e2 = (2 : ℚ) ^ (e1 - e2) :=
        (zpow_sub₀ (by norm_num : (2 : ℚ) ≠ 0) e1 e2).symm
      have hm2q : (m2 : ℚ) ≠ 0 := by exact_mod_cast hm2
      have : (m1 : ℚ) * (2 : ℚ) ^ e1 / ((m2 : ℚ) * (2 : ℚ) ^ e2)
          = (m1 : ℚ) / (m2 : ℚ) * ((2 : ℚ) ^ e1 / (2 : ℚ) ^ e2) := by
        field_simp
      rw [this, h2, two_zpow_eq (e1 - e2)]
      have hneg : (-(e1 - e2)).toNat = (e2 - e1).toNat := by congr 1; ring
      rw [hneg]
      push_cast
      field_simp
    have hn : 0 < m1 * 2 ^ (e1 - e2).toNat := by
      have : 0 < m1 := Nat.pos_of_ne_zero h0
      positivity
    have hd : 0 < m2 * 2 ^ (e2 - e1).toNat := by
      have : 0 < m2 := Nat.pos_of_ne_zero hm2
      positivity
    exact roundPos_nonneg _ _ hn hd _ hq hlt

theorem add_spec {x y : F64} (hx : NonNeg x) (hy : NonNeg y)
    (hlt : val x + val y < (2 : ℚ) ^ (1023 : Int)) :
    NonNeg (add x y)
    ∧ |val (add x y) - (val x + val y)| ≤ (val x + val y) / 2 ^ 53 + 1 / 2 ^ 1075
    ∧ ((2 : ℚ) ^ (-1022 : Int) ≤ val x + val y →
        |val (add x y) - (val x + val y)| ≤ (val x + val y) / 2 ^ 53) := by
  obtain ⟨m1, e1, rfl⟩ := hx
  obtain ⟨m2, e2, rfl⟩ := hy
  rw [val_fin_false, val_fin_false] at hlt ⊢
  have hsum : ((m1 * 2 ^ (e1 - min e1 e2).toNat + m2 * 2 ^ (e2 - min e1 e2).toNat : Nat) : ℚ)
      * (2 : ℚ) ^ (min e1 e2) = (m1 : ℚ) * (2 : ℚ) ^ e1 + (m2 : ℚ) * (2 : ℚ) ^ e2 := by
    have h1 : ((2 : ℚ) ^ (e1 - min e1 e2).toNat) * (2 : ℚ) ^ (min e1 e2) = (2 : ℚ) ^ e1 := by
      rw [← zpow_natCast, Int.toNat_of_nonneg (by omega), ← zpow_add₀ (by norm_num : (2 : ℚ) ≠ 0)]
      congr 1
      ring
    have h2 : ((2 : ℚ) ^ (e2 - min e1 e2).toNat) * (2 : ℚ) ^ (min e1 e2) = (2 : ℚ) ^ e2 := by
      rw [← zpow_natCast, Int.toNat_of_nonneg (by omega), ← zpow_add₀ (by norm_num : (2 : ℚ) ≠ 0)]
      congr 1
      ring
    push_cast
    rw [add_mul, mul_assoc, mul_assoc, h1, h2]
  have hc : signed false (m1 * 2 ^ (e1 - min e1 e2).toNat)
      + signed false (m2 * 2 ^ (e2 - min e1 e2).toNat)
      = ((m1 * 2 ^ (e1 - min e1 e2).toNat + m2 * 2 ^ (e2 - min e1 e2).toNat : Nat) : Int) := by
    simp [signed]
  simp only [add, hc, Bool.and_self]
  by_cases h0 : m1 * 2 ^ (e1 - min e1 e2).toNat + m2 * 2 ^ (e2 - min e1 e2).toNat = 0
  · have hz : ((m1 * 2 ^ (e1 - min e1 e2).toNat + m2 * 2 ^ (e2 - min e1 e2).toNat : Nat) : Int)
        = 0 := by exact_mod_cast h0
    rw [if_pos hz, val_signedZero, ← hsum, h0]
    refine ⟨nonNeg_signedZero, by simp, ?_⟩
    intro _
    simp
  · have hz : ¬ ((m1 * 2 ^ (e1 - min e1 e2).toNat + m2 * 2 ^ (e2 - min e1 e2).toNat : Nat) : Int)
        = 0 := by exact_mod_cast h0
    have hneg : decide (((m1 * 2 ^ (e1 - min e1 e2).toNat
        + m2 * 2 ^ (e2 - min e1 e2).toNat : Nat) : Int) < 0) = false := by
      simp only [decide_eq_false_iff_not, not_lt]
      positivity
    rw [if_neg hz, hneg, Int.natAbs_ofNat]
    have hq : ((((m1 * 2 ^ (e1 - min e1 e2).toNat + m2 * 2 ^ (e2 - min e1 e2).toNat)
          * 2 ^ (min e1 e2).toNat : Nat) : ℚ)) / ((2 ^ (-(min e1 e2)).toNat : Nat) : ℚ)
        = (m1 : ℚ) * (2 : ℚ) ^ e1 + (m2 : ℚ) * (2 : ℚ) ^ e2 := by
      rw [← hsum, two_zpow_eq (min e1 e2)]
      push_cast
      ring
    have hn : 0 < (m1 * 2 ^ (e1 - min e1 e2).toNat + m2 * 2 ^ (e2 - min e1 e2).toNat)
        * 2 ^ (min e1 e2).toNat := by
      have : 0 < m1 * 2 ^ (e1 - min e1 e2).toNat + m2 * 2 ^ (e2 - min e1 e2).toNat :=
        Nat.pos_of_ne_zero h0
      positivity
    exact roundPos_nonneg _ _ hn (by positivity) _ hq hlt

theorem round_spec {x : F64} (hx : NonNeg x) (hlt : val x < (2 : ℚ) ^ (1022 : Int)) :
    NonNeg (round x)
    ∧ |val (round x) - val x| ≤ 1 / 2 + (val x + 1 / 2) / 2 ^ 53 := by
  have hvx := hx.val_nonneg
  obtain ⟨m, e, rfl⟩ := hx
  by_cases he : e ≥ 0
  · simp only [round, he, if_true]
    refine ⟨⟨m, e, rfl⟩, ?_⟩
    rw [sub_self, abs_zero]
    positivity
  · simp only [round, he, if_false]
    rw [val_fin_false] at hlt hvx ⊢
    have hD : (0 : ℚ) < (2 : ℚ) ^ (-e).toNat := by positivity
    have hval : (m : ℚ) * (2 : ℚ) ^ e = (m : ℚ) / (2 : ℚ) ^ (-e).toNat := by
      rw [two_zpow_eq e]
      have : e.toNat = 0 := by omega
      rw [this, pow_zero]
      field_simp
    -- the integer `t = ⌊x + 1/2⌋`
    have hdm := Nat.div_add_mod (2 * m + 2 ^ (-e).toNat) (2 * 2 ^ (-e).toNat)
    have hmod := Nat.mod_lt (2 * m + 2 ^ (-e).toNat) (by positivity : 0 < 2 * 2 ^ (-e).toNat)
    have hdmq : (2 : ℚ) * (2 : ℚ) ^ (-e).toNat
          * (((2 * m + 2 ^ (-e).toNat) / (2 * 2 ^ (-e).toNat) : Nat) : ℚ)
        + (((2 * m + 2 ^ (-e).toNat) % (2 * 2 ^ (-e).toNat) : Nat) : ℚ)
        = 2 * (m : ℚ) + (2 : ℚ) ^ (-e).toNat := by exact_mod_cast hdm
    have hmodq : (((2 * m + 2 ^ (-e).toNat) % (2 * 2 ^ (-e).toNat) : Nat) : ℚ)
        < 2 * (2 : ℚ) ^ (-e).toNat := by exact_mod_cast hmod
    have hmod0 : (0 : ℚ) ≤ (((2 * m + 2 ^ (-e).toNat) % (2 * 2 ^ (-e).toNat) : Nat) : ℚ) := by
      positivity
    generalize ((2 * m + 2 ^ (-e).toNat) / (2 * 2 ^ (-e).toNat) : Nat) = t at hdmq ⊢
    generalize (((2 * m + 2 ^ (-e).toNat) % (2 * 2 ^ (-e).toNat) : Nat) : ℚ) = r at hdmq hmodq hmod0
    rw [hval] at hlt hvx ⊢
    generalize (2 : ℚ) ^ (-e).toNat = D at hD hdmq hmodq hlt hvx ⊢
    have hm_eq : (m : ℚ) = D * (t : ℚ) + r / 2 - D / 2 := by linarith
    have hx_eq : (m : ℚ) / D = (t : ℚ) + r / (2 * D) - 1 / 2 := by
      rw [hm_eq]
      field_simp
      ring
    have hr1 : r / (2 * D) < 1 := by
      rw [div_lt_iff₀ (by positivity)]
      linarith
    have hr0 : 0 ≤ r / (2 * D) := by positivity
    have ht_lo : (t : ℚ) - 1 / 2 ≤ (m : ℚ) / D := by linarith
    have ht_hi : (m : ℚ) / D ≤ (t : ℚ) + 1 / 2 := by linarith
    by_cases ht : t = 0
    · subst ht
      simp only [if_true, val_signedZero]
      refine ⟨nonNeg_signedZero, ?_⟩
      rw [zero_sub, abs_neg, abs_of_nonneg hvx]
      have : (0 : ℚ) ≤ ((m : ℚ) / D + 1 / 2) / 2 ^ 53 := by positivity
      push_cast at ht_hi
      linarith
    · simp only [ht, if_false]
      have htpos : 0 < t := Nat.pos_of_ne_zero ht
      have ht1 : (1 : ℚ) ≤ t := by exact_mod_cast htpos
      have hq : ((t : Nat) : ℚ) / ((1 : Nat) : ℚ) = (t : ℚ) := by simp
      have htlt : (t : ℚ) < (2 : ℚ) ^ (1023 : Int) := by
        have h1 : (2 : ℚ) ^ (1023 : Int) = 2 * (2 : ℚ) ^ (1022 : Int) := by
          rw [show (1023 : Int) = 1022 + 1 by norm_num, zpow_add_one₀ (by norm_num : (2 : ℚ) ≠ 0)]
          ring
        have h2 : (1 : ℚ) ≤ (2 : ℚ) ^ (1022 : Int) := by
          apply one_le_zpow₀ (by norm_num) (by norm_num)
        linarith
      obtain ⟨h1, -, h3⟩ := roundPos_nonneg t 1 htpos (by norm_num) _ hq htlt
      have hsmall : (2 : ℚ) ^ (-1022 : Int) ≤ (t : ℚ) := by
        have : (2 : ℚ) ^ (-1022 : Int) ≤ 1 := by
          apply zpow_le_one_of_nonpos₀ (by norm_num) (by norm_num)
        linarith
      have h4 := h3 hsmall
      refine ⟨h1, ?_⟩
      have habs : |(t : ℚ) - (m : ℚ) / D| ≤ 1 / 2 := by
        rw [abs_le]
        constructor <;> linarith
      have htri : |val (roundPos false t 1) - (m : ℚ) / D|
          ≤ |val (roundPos false t 1) - (t : ℚ)| + |(t : ℚ) - (m : ℚ) / D| := by
        have := abs_add (val (roundPos false t 1) - (t : ℚ)) ((t : ℚ) - (m : ℚ) / D)
        simpa using this
      have hdivle : (t : ℚ) / 2 ^ 53 ≤ ((m : ℚ) / D + 1 / 2) / 2 ^ 53 :=
        div_le_div_of_nonneg_right (by linarith) (by positivity)
      linarith

end F64

namespace F64

theorem nonNeg_of_pos {x : F64} (h : lt zero x = true) (hf : x.isFinite = true) :
    NonNeg x ∧ 0 < val x := by
  cases x with
  | nan => simp [isFinite] at hf
  | inf s => simp [isFinite] at hf
  | fin s m e =>
    simp only [lt, zero, signedZero, decide_eq_true_eq, signed, Bool.false_eq_true, if_false,
      Nat.cast_mul, zero_mul, Nat.cast_zero] at h
    cases s with
    | true =>
      simp only [if_true] at h
      have : (0 : Int) ≤ (m : Int) * ((2 ^ (e - min (-1074) e).toNat : Nat) : Int) := by positivity
      omega
    | false =>
      simp only [Bool.false_eq_true, if_false] at h
      refine ⟨⟨m, e, rfl⟩, ?_⟩
      rw [val_fin_false]
      have hm : m ≠ 0 := by
        rintro rfl
        simp at h
      have : (0 : ℚ) < m := by exact_mod_cast Nat.pos_of_ne_zero hm
      positivity

end F64

theorem sum_val_perm {l1 l2 : List (String × F64)} (f : F64 → ℚ) (h : l1.Perm l2) :
    (l1.map (fun kv => f kv.2)).sum = (l2.map (fun kv => f kv.2)).sum :=
  (h.map (fun kv => f kv.2)).sum_eq

theorem sectorDistribution_sum :
    (sectorDistribution.map (fun kv => F64.val kv.2)).sum = 1 := by
  decide!

theorem sectorDistribution_nonNeg :
    ∀ kv ∈ sectorDistribution, F64.NonNeg kv.2 ∧ F64.val kv.2 ≤ 1 := by
  intro kv h
  simp only [sectorDistribution, List.mem_cons, List.mem_singleton, List.not_mem_nil,
    or_false] at h
  rcases h with rfl | rfl | rfl | rfl | rfl
  · exact ⟨⟨5404319552844595, -55, by decide⟩, by decide!⟩
  · exact ⟨⟨7205759403792794, -55, by decide⟩, by decide!⟩
  · exact ⟨⟨5404319552844595, -54, by decide⟩, by decide!⟩
  · exact ⟨⟨4503599627370496, -54, by decide⟩, by decide!⟩
  · exact ⟨⟨7205759403792794, -56, by decide⟩, by decide!⟩

/-- Sum of the errors of a list of float64 products against the exact products. -/
theorem fixed_sum_bound (T : F64) (hT : F64.NonNeg T) (hTle : F64.val T ≤ 400000000000000)
    (l : List (String × F64)) (hl : ∀ kv ∈ l, F64.NonNeg kv.2 ∧ F64.val kv.2 ≤ 1) :
    (∀ kv ∈ l, (F64.mul T kv.2).isFinite = true)
    ∧ |(l.map (fun kv => F64.val (F64.mul T kv.2))).sum
        - F64.val T * (l.map (fun kv => F64.val kv.2)).sum|
      ≤ F64.val T * (l.map (fun kv => F64.val kv.2)).sum / 2 ^ 53 + l.length / 2 ^ 1075 := by
  have hT0 := hT.val_nonneg
  induction l with
  | nil => simp
  | cons a l ih =>
    obtain ⟨ha, ha1⟩ := hl a (List.mem_cons_self _ _)
    obtain ⟨ihf, ihs⟩ := ih (fun kv hkv => hl kv (List.mem_cons_of_mem _ hkv))
    have ha0 := ha.val_nonneg
    have hlt : F64.val T * F64.val a.2 < (2 : ℚ) ^ (1023 : Int) := by
      have h1 : F64.val T * F64.val a.2 ≤ 400000000000000 * 1 :=
        mul_le_mul hTle ha1 ha0 (by norm_num)
      have h2 : (400000000000000 : ℚ) * 1 < (2 : ℚ) ^ (1023 : Int) := by
        rw [show ((1023 : Int)) = ((1023 : Nat) : Int) by norm_num, zpow_natCast]
        norm_num
      linarith
    obtain ⟨hm1, hm2⟩ := F64.mul_spec hT ha hlt
    constructor
    · intro kv hkv
      rcases List.mem_cons.mp hkv with rfl | h
      · exact hm1.isFinite
      · exact ihf kv h
    · simp only [List.map_cons, List.sum_cons, List.length_cons, Nat.cast_add, Nat.cast_one]
      rw [abs_le] at hm2 ihs ⊢
      constructor
      · have := hm2.1
        have := ihs.1
        ring_nf at *
        linarith
      · have := hm2.2
        have := ihs.2
        ring_nf at *
        linarith

/-- The float64 running sum of non-negative normal weights stays within a relative
error that grows by `2^-52` per addition. -/
theorem foldl_add_spec (l : List (String × F64)) (acc : F64) (A ε : ℚ)
    (hacc : F64.NonNeg acc) (hA : 0 ≤ A) (hε : 0 ≤ ε)
    (herr : |F64.val acc - A| ≤ ε * A)
    (hl : ∀ kv ∈ l, F64.NonNeg kv.2 ∧ (2 : ℚ) ^ (-1022 : Int) ≤ F64.val kv.2)
    (hε1 : ε + 2 / 2 ^ 53 * l.length ≤ 1)
    (hbig : 2 * (A + (l.map (fun kv => F64.val kv.2)).sum) < (2 : ℚ) ^ (1023 : Int)) :
    F64.NonNeg (l.foldl (fun acc kv => F64.add acc kv.2) acc)
    ∧ |F64.val (l.foldl (fun acc kv => F64.add acc kv.2) acc)
        - (A + (l.map (fun kv => F64.val kv.2)).sum)|
      ≤ (ε + 2 / 2 ^ 53 * l.length) * (A + (l.map (fun kv => F64.val kv.2)).sum) := by
  induction l generalizing acc A ε with
  | nil => simpa using ⟨hacc, herr⟩
  | cons a l ih =>
    obtain ⟨ha, hamin⟩ := hl a (List.mem_cons_self _ _)
    have hl' : ∀ kv ∈ l, F64.NonNeg kv.2 ∧ (2 : ℚ) ^ (-1022 : Int) ≤ F64.val kv.2 :=
      fun kv hkv => hl kv (List.mem_cons_of_mem _ hkv)
    have hrest : 0 ≤ (l.map (fun kv => F64.val kv.2)).sum :=
      List.sum_nonneg (by
        intro x hx
        obtain ⟨kv, hkv, rfl⟩ := List.mem_map.mp hx
        exact (hl' kv hkv).1.val_nonneg)
    have ha0 : 0 ≤ F64.val a.2 := ha.val_nonneg
    have hacc0 : 0 ≤ F64.val acc := hacc.val_nonneg
    simp only [List.map_cons, List.sum_cons, List.length_cons, Nat.cast_add, Nat.cast_one] at hε1 hbig ⊢
    have hlen0 : (0 : ℚ) ≤ (l.length : ℚ) := by positivity
    have hεle : ε ≤ 1 := by
      have : (0 : ℚ) ≤ 2 / 2 ^ 53 * ((l.length : ℚ) + 1) := by positivity
      linarith
    rw [abs_le] at herr
    have hεA : ε * A ≤ A := by
      have := mul_le_mul_of_nonneg_right hεle hA
      linarith
    have haccle : F64.val acc ≤ 2 * A := by linarith [herr.2]
    have hsumlt : F64.val acc + F64.val a.2 < (2 : ℚ) ^ (1023 : Int) := by linarith
    have hmin : (2 : ℚ) ^ (-1022 : Int) ≤ F64.val acc + F64.val a.2 := by linarith
    obtain ⟨hn, -, hr2⟩ := F64.add_spec hacc ha hsumlt
    have hr := hr2 hmin
    rw [abs_le] at hr
    have hstep : |F64.val (F64.add acc a.2) - (A + F64.val a.2)|
        ≤ (ε + 2 / 2 ^ 53) * (A + F64.val a.2) := by
      rw [abs_le]
      have hεa : 0 ≤ ε * F64.val a.2 := mul_nonneg hε ha0
      constructor
      · nlinarith [herr.1, herr.2, hr.1, hr.2]
      · nlinarith [herr.1, herr.2, hr.1, hr.2]
    have hih := ih (F64.add acc a.2) (A + F64.val a.2) (ε + 2 / 2 ^ 53) hn (by linarith)
      (by positivity) hstep hl' (by linarith) (by linarith)
    simp only [List.foldl_cons]
    refine ⟨hih.1, ?_⟩
    have e1 : A + F64.val a.2 + (l.map (fun kv => F64.val kv.2)).sum
        = A + (F64.val a.2 + (l.map (fun kv => F64.val kv.2)).sum) := by ring
    have e2 : ε + 2 / 2 ^ 53 + 2 / 2 ^ 53 * (l.length : ℚ)
        = ε + 2 / 2 ^ 53 * ((l.length : ℚ) + 1) := by ring
    rw [e1, e2] at hih
    exact hih.2

theorem ofNat_100_nonNeg : F64.NonNeg (F64.ofNat 100) ∧ F64.val (F64.ofNat 100) = 100 := by
  have h : F64.ofNat 100 = F64.fin false 7036874417766400 (-46) := by decide
  rw [h, F64.val_fin_false]
  refine ⟨⟨_, _, rfl⟩, ?_⟩
  rw [zpow_neg, ← div_eq_mul_inv, show ((46 : Int)) = ((46 : Nat) : Int) by norm_num, zpow_natCast]
  norm_num

theorem two_pow_1022_big : (10 : ℚ) ^ 300 ≤ (2 : ℚ) ^ (1022 : Int) := by
  rw [show ((1022 : Int)) = ((1022 : Nat) : Int) by norm_num, zpow_natCast]
  norm_num

theorem two_pow_1023_big : (10 : ℚ) ^ 300 ≤ (2 : ℚ) ^ (1023 : Int) := by
  rw [show ((1023 : Int)) = ((1023 : Nat) : Int) by norm_num, zpow_natCast]
  norm_num

theorem two_pow_neg_1022_small : (2 : ℚ) ^ (-1022 : Int) ≤ 1 / (10 : ℚ) ^ 300 := by
  rw [zpow_neg, show ((1022 : Int)) = ((1022 : Nat) : Int) by norm_num, zpow_natCast, ← one_div]
  apply one_div_le_one_div_of_le (by positivity)
  norm_num

/-- Rounding an amount of at most `4 × 10^12` to cents moves it by at most `0.0064`. -/
theorem cents_spec {r : F64} (hr : F64.NonNeg r) (hle : F64.val r ≤ 4000000000000) :
    F64.NonNeg (F64.div (F64.round (F64.mul r (F64.ofNat 100))) (F64.ofNat 100))
    ∧ |F64.val (F64.div (F64.round (F64.mul r (F64.ofNat 100))) (F64.ofNat 100)) - F64.val r|
      ≤ 64 / 10000 := by
  obtain ⟨hc, hcv⟩ := ofNat_100_nonNeg
  have hr0 := hr.val_nonneg
  have hb1 := two_pow_1022_big
  have hb2 := two_pow_1023_big
  have hη : (1 : ℚ) / 2 ^ 1075 ≤ 1 / 10 ^ 300 := by
    apply one_div_le_one_div_of_le (by positivity)
    norm_num
  have hη0 : (0 : ℚ) < 1 / 2 ^ 1075 := by positivity
  have h300 : (1 : ℚ) / 10 ^ 300 ≤ 1 / 10 ^ 10 := by
    apply one_div_le_one_div_of_le (by positivity)
    norm_num
  have hbig : (10 : ℚ) ^ 20 ≤ 10 ^ 300 := by norm_num
  -- s = r * 100
  have hs_lt : F64.val r * F64.val (F64.ofNat 100) < (2 : ℚ) ^ (1023 : Int) := by
    rw [hcv]
    have : F64.val r * 100 ≤ 10 ^ 20 := by linarith
    linarith
  obtain ⟨hs, hserr⟩ := F64.mul_spec hr hc hs_lt
  rw [hcv, abs_le] at hserr
  have hs0 := hs.val_nonneg
  have hsle : F64.val (F64.mul r (F64.ofNat 100)) ≤ 400000000000001 := by
    have : F64.val r * 100 / 2 ^ 53 ≤ 1 / 2 := by
      rw [div_le_iff₀ (by positivity)]
      norm_num
      linarith
    linarith [hserr.2]
  -- t = round s
  have ht_lt : F64.val (F64.mul r (F64.ofNat 100)) < (2 : ℚ) ^ (1022 : Int) := by linarith
  obtain ⟨ht, hterr⟩ := F64.round_spec hs ht_lt
  rw [abs_le] at hterr
  have ht0 := ht.val_nonneg
  have htle : F64.val (F64.round (F64.mul r (F64.ofNat 100))) ≤ 400000000000003 := by
    have : (F64.val (F64.mul r (F64.ofNat 100)) + 1 / 2) / 2 ^ 53 ≤ 1 := by
      rw [div_le_iff₀ (by positivity)]
      norm_num
      linarith
    linarith [hterr.2]
  -- a = t / 100
  have hcpos : 0 < F64.val (F64.ofNat 100) := by rw [hcv]; norm_num
  have ha_lt : F64.val (F64.round (F64.mul r (F64.ofNat 100))) / F64.val (F64.ofNat 100)
      < (2 : ℚ) ^ (1023 : Int) := by
    rw [hcv]
    have : F64.val (F64.round (F64.mul r (F64.ofNat 100))) / 100 ≤ 10 ^ 20 := by
      rw [div_le_iff₀ (by norm_num)]
      linarith
    linarith
  obtain ⟨ha, haerr, -⟩ := F64.div_spec ht hc hcpos ha_lt
  rw [hcv, abs_le] at haerr
  refine ⟨ha, ?_⟩
  rw [abs_le]
  have e1 : F64.val r * 100 / 2 ^ 53 ≤ 4000000000000 * 100 / 2 ^ 53 :=
    div_le_div_of_nonneg_right (by linarith) (by positivity)
  have e2 : (F64.val (F64.mul r (F64.ofNat 100)) + 1 / 2) / 2 ^ 53
      ≤ (400000000000001 + 1 / 2) / 2 ^ 53 :=
    div_le_div_of_nonneg_right (by linarith) (by positivity)
  have e3 : F64.val (F64.round (F64.mul r (F64.ofNat 100))) / 100 / 2 ^ 53
      ≤ 400000000000003 / 100 / 2 ^ 53 :=
    div_le_div_of_nonneg_right (div_le_div_of_nonneg_right htle (by norm_num)) (by positivity)
  have n1 : (4000000000000 : ℚ) * 100 / 2 ^ 53 ≤ 45 / 1000 := by norm_num
  have n2 : ((400000000000001 : ℚ) + 1 / 2) / 2 ^ 53 ≤ 45 / 1000 := by norm_num
  have n3 : (400000000000003 : ℚ) / 100 / 2 ^ 53 ≤ 45 / 100000 := by norm_num
  constructor
  · linarith [haerr.1, hterr.1, hserr.1]
  · linarith [haerr.2, hterr.2, hserr.2]

theorem F64.nonNeg_of_val_pos {x : F64} (hf : x.isFinite = true) (hpos : 0 < F64.val x) :
    F64.NonNeg x := by
  cases x with
  | nan => simp [F64.isFinite] at hf
  | inf s => simp [F64.isFinite] at hf
  | fin s m e =>
    cases s with
    | false => exact ⟨m, e, rfl⟩
    | true =>
      rw [F64.val_fin] at hpos
      have : (0 : ℚ) ≤ (m : ℚ) * (2 : ℚ) ^ e := by positivity
      simp only [F64.sgn, if_true] at hpos
      linarith

/-- One category of the dynamic strategy: the float64 share is within `2^-53` (relative)
of `w / S`, and the rounded amount within `0.0068` of `share × total`. -/
theorem share_spec {w S T : F64} (hw : F64.NonNeg w) (hS : F64.NonNeg S) (hT : F64.NonNeg T)
    (W : ℚ) (hwmin : 1 / 10 ^ 100 ≤ F64.val w) (hwW : F64.val w ≤ W) (hWle : W ≤ 10 ^ 106)
    (hSlo : W ≤ 2 * F64.val S) (hShi : F64.val S ≤ 2 * W)
    (hTle : F64.val T ≤ 1000000000000) :
    F64.NonNeg (roundedAmount w S T)
    ∧ |F64.val (F64.div w S) - F64.val w / F64.val S| ≤ F64.val w / F64.val S / 2 ^ 53
    ∧ |F64.val (roundedAmount w S T) - F64.val (F64.div w S) * F64.val T| ≤ 68 / 10000 := by
  have hw0 : 0 < F64.val w := lt_of_lt_of_le (by positivity) hwmin
  have hSpos : 0 < F64.val S := by linarith
  have hT0 := hT.val_nonneg
  have hb1 := two_pow_1023_big
  have hb2 := two_pow_neg_1022_small
  have hbig : (10 : ℚ) ^ 20 ≤ 10 ^ 300 := by norm_num
  have hη : (1 : ℚ) / 2 ^ 1075 ≤ 1 / 10 ^ 10 := by
    apply one_div_le_one_div_of_le (by positivity)
    norm_num
  -- the share
  have hx2 : F64.val w / F64.val S ≤ 2 := by
    rw [div_le_iff₀ hSpos]
    linarith
  have hx0 : 0 < F64.val w / F64.val S := by positivity
  have hxmin : (2 : ℚ) ^ (-1022 : Int) ≤ F64.val w / F64.val S := by
    rw [le_div_iff₀ hSpos]
    have h1 : (2 : ℚ) ^ (-1022 : Int) * F64.val S ≤ 1 / 10 ^ 300 * (2 * 10 ^ 106) :=
      mul_le_mul hb2 (by linarith) hSpos.le (by positivity)
    have h2 : (1 : ℚ) / 10 ^ 300 * (2 * 10 ^ 106) ≤ 1 / 10 ^ 100 := by norm_num
    exact le_trans h1 (le_trans h2 hwmin)
  obtain ⟨hp, -, hperr2⟩ := F64.div_spec hw hS hSpos (by linarith)
  have hperr := hperr2 hxmin
  have hp0 := hp.val_nonneg
  have hple : F64.val (F64.div w S) ≤ 3 := by
    have := (abs_le.mp hperr).2
    have : F64.val w / F64.val S / 2 ^ 53 ≤ 2 / 2 ^ 53 :=
      div_le_div_of_nonneg_right hx2 (by positivity)
    have : (2 : ℚ) / 2 ^ 53 ≤ 1 := by norm_num
    linarith
  -- the raw amount
  have hpT : F64.val (F64.div w S) * F64.val T ≤ 3 * 1000000000000 :=
    mul_le_mul hple hTle hT0 (by norm_num)
  obtain ⟨hr, hrerr⟩ := F64.mul_spec hp hT (by linarith)
  have hrerr' := abs_le.mp hrerr
  have hpTu : F64.val (F64.div w S) * F64.val T / 2 ^ 53 ≤ 3 * 1000000000000 / 2 ^ 53 :=
    div_le_div_of_nonneg_right hpT (by positivity)
  have n1 : (3 : ℚ) * 1000000000000 / 2 ^ 53 ≤ 34 / 100000 := by norm_num
  have hrle : F64.val (F64.mul (F64.div w S) T) ≤ 4000000000000 := by linarith [hrerr'.2]
  obtain ⟨ha, haerr⟩ := cents_spec hr hrle
  have haerr' := abs_le.mp haerr
  refine ⟨ha, hperr, ?_⟩
  show |F64.val (F64.div (F64.round (F64.mul (F64.mul (F64.div w S) T) (F64.ofNat 100)))
      (F64.ofNat 100)) - F64.val (F64.div w S) * F64.val T| ≤ 68 / 10000
  rw [abs_le]
  constructor
  · linarith [haerr'.1, hrerr'.1]
  · linarith [haerr'.2, hrerr'.2]

theorem list_sum_sub_le {α : Type} (l : List α) (f g : α → ℚ) (c : ℚ)
    (h : ∀ x ∈ l, |f x - g x| ≤ c) :
    |(l.map f).sum - (l.map g).sum| ≤ l.length * c := by
  induction l with
  | nil => simp
  | cons a l ih =>
    have h1 := h a (List.mem_cons_self _ _)
    have h2 := ih (fun x hx => h x (List.mem_cons_of_mem _ hx))
    simp only [List.map_cons, List.sum_cons, List.length_cons, Nat.cast_add, Nat.cast_one]
    rw [abs_le] at h1 h2 ⊢
    constructor <;> linarith [h1.1, h1.2, h2.1, h2.2]

theorem list_sum_sub_le_sum {α : Type} (l : List α) (f g h : α → ℚ)
    (hb : ∀ x ∈ l, |f x - g x| ≤ h x) :
    |(l.map f).sum - (l.map g).sum| ≤ (l.map h).sum := by
  induction l with
  | nil => simp
  | cons a l ih =>
    have h1 := hb a (List.mem_cons_self _ _)
    have h2 := ih (fun x hx => hb x (List.mem_cons_of_mem _ hx))
    simp only [List.map_cons, List.sum_cons]
    rw [abs_le] at h1 h2 ⊢
    constructor <;> linarith [h1.1, h1.2, h2.1, h2.2]

theorem val_zero : F64.val F64.zero = 0 := F64.val_signedZero false

/-- The dynamic strategy on a table of positive weights: every rounded amount is finite
and the exact sum of the rounded amounts is within `0.01` per category of the total. -/
theorem dynamic_sum_bound (sumOrder allocOrder : List (String × F64)) (T : F64)
    (hperm : allocOrder.Perm sumOrder) (hne : sumOrder ≠ [])
    (hlen : sumOrder.length ≤ 1000000)
    (hw : ∀ kv ∈ sumOrder, kv.2.isFinite = true ∧ 1 / 10 ^ 100 ≤ F64.val kv.2
      ∧ F64.val kv.2 ≤ 10 ^ 100)
    (hT : F64.NonNeg T) (hTle : F64.val T ≤ 1000000000000) :
    amountsWithin T
      (allocOrder.map (fun kv => roundedAmount kv.2 (totalBudget sumOrder) T)) := by
  have hT0 := hT.val_nonneg
  have hb2 := two_pow_neg_1022_small
  have hb1 := two_pow_1023_big
  have hnn : ∀ kv ∈ sumOrder, F64.NonNeg kv.2 := fun kv hkv =>
    F64.nonNeg_of_val_pos (hw kv hkv).1 (lt_of_lt_of_le (by positivity) (hw kv hkv).2.1)
  have hnorm : ∀ kv ∈ sumOrder, F64.NonNeg kv.2 ∧ (2 : ℚ) ^ (-1022 : Int) ≤ F64.val kv.2 := by
    intro kv hkv
    refine ⟨hnn kv hkv, le_trans hb2 (le_trans ?_ (hw kv hkv).2.1)⟩
    apply one_div_le_one_div_of_le (by positivity)
    norm_num
  -- the exact total weight
  have hWal : (allocOrder.map (fun kv => F64.val kv.2)).sum
      = (sumOrder.map (fun kv => F64.val kv.2)).sum := sum_val_perm F64.val hperm
  have hlenal : allocOrder.length = sumOrder.length := hperm.length_eq
  have hn1 : 1 ≤ sumOrder.length := by
    cases sumOrder with
    | nil => exact absurd rfl hne
    | cons a l => simp
  have hn1q : (1 : ℚ) ≤ (sumOrder.length : ℚ) := by exact_mod_cast hn1
  have hnq : (sumOrder.length : ℚ) ≤ 1000000 := by exact_mod_cast hlen
  have hWle : (sumOrder.map (fun kv => F64.val kv.2)).sum ≤ 10 ^ 106 := by
    have h1 := List.sum_le_card_nsmul (sumOrder.map (fun kv => F64.val kv.2)) (10 ^ 100) (by
      intro x hx
      obtain ⟨kv, hkv, rfl⟩ := List.mem_map.mp hx
      exact (hw kv hkv).2.2)
    rw [List.length_map, nsmul_eq_mul] at h1
    have h2 : (sumOrder.length : ℚ) * 10 ^ 100 ≤ 1000000 * 10 ^ 100 :=
      mul_le_mul_of_nonneg_right hnq (by positivity)
    have h3 : (1000000 : ℚ) * 10 ^ 100 = 10 ^ 106 := by norm_num
    linarith
  have hsingle : ∀ kv ∈ sumOrder, F64.val kv.2 ≤ (sumOrder.map (fun kv => F64.val kv.2)).sum := by
    intro kv hkv
    apply List.single_le_sum
    · intro x hx
      obtain ⟨kv', hkv', rfl⟩ := List.mem_map.mp hx
      exact (hnn kv' hkv').val_nonneg
    · exact List.mem_map_of_mem _ hkv
  have hWpos : 0 < (sumOrder.map (fun kv => F64.val kv.2)).sum := by
    cases hso : sumOrder with
    | nil => exact absurd hso hne
    | cons a l =>
      have ha : a ∈ sumOrder := by rw [hso]; exact List.mem_cons_self _ _
      have h1 := hsingle a ha
      have h2 : (0 : ℚ) < F64.val a.2 := lt_of_lt_of_le (by positivity) (hw a ha).2.1
      rw [hso] at h1
      linarith
  -- the float64 total weight
  have hε : (2 : ℚ) / 2 ^ 53 * (sumOrder.length : ℚ) ≤ 1 / 1000000 := by
    have : (2 : ℚ) / 2 ^ 53 * (sumOrder.length : ℚ) ≤ 2 / 2 ^ 53 * 1000000 :=
      mul_le_mul_of_nonneg_left hnq (by positivity)
    have : (2 : ℚ) / 2 ^ 53 * 1000000 ≤ 1 / 1000000 := by norm_num
    linarith
  have hbig : (10 : ℚ) ^ 107 ≤ 10 ^ 300 := by norm_num
  obtain ⟨hS, hSerr⟩ := foldl_add_spec sumOrder F64.zero 0 0 F64.nonNeg_signedZero le_rfl le_rfl
    (by rw [val_zero]; simp) hnorm (by linarith) (by
      have : (2 : ℚ) * (0 + (sumOrder.map (fun kv => F64.val kv.2)).sum) ≤ 10 ^ 107 := by
        have : (10 : ℚ) ^ 107 = 10 * 10 ^ 106 := by norm_num
        linarith
      linarith)
  have hSdef : sumOrder.foldl (fun acc kv => F64.add acc kv.2) F64.zero = totalBudget sumOrder :=
    rfl
  rw [hSdef, zero_add, zero_add] at hSerr
  rw [hSdef] at hS
  generalize hWdef : (sumOrder.map (fun kv => F64.val kv.2)).sum = W at *
  generalize totalBudget sumOrder = S at *
  have hSerr' := abs_le.mp hSerr
  have hεW : (2 : ℚ) / 2 ^ 53 * (sumOrder.length : ℚ) * W ≤ 1 / 1000000 * W :=
    mul_le_mul_of_nonneg_right hε hWpos.le
  have hSlo : W ≤ 2 * F64.val S := by linarith [hSerr'.1]
  have hShi : F64.val S ≤ 2 * W := by linarith [hSerr'.2]
  have hSpos : 0 < F64.val S := by linarith
  -- each category
  have helem : ∀ kv ∈ allocOrder,
      F64.NonNeg (roundedAmount kv.2 S T)
      ∧ |F64.val (F64.div kv.2 S) - F64.val kv.2 / F64.val S| ≤ F64.val kv.2 / F64.val S / 2 ^ 53
      ∧ |F64.val (roundedAmount kv.2 S T) - F64.val (F64.div kv.2 S) * F64.val T|
          ≤ 68 / 10000 := by
    intro kv hkv
    have hkv' := hperm.subset hkv
    exact share_spec (hnn kv hkv') hS hT W (hw kv hkv').2.1 (hsingle kv hkv') hWle hSlo hShi hTle
  refine ⟨?_, ?_⟩
  · intro a ha
    obtain ⟨kv, hkv, rfl⟩ := List.mem_map.mp ha
    exact (helem kv hkv).1.isFinite
  · rw [List.map_map, List.length_map, hlenal]
    have hA := list_sum_sub_le allocOrder (fun kv => F64.val (roundedAmount kv.2 S T))
      (fun kv => F64.val (F64.div kv.2 S) * F64.val T) (68 / 10000)
      (fun kv hkv => (helem kv hkv).2.2)
    rw [List.sum_map_mul_right, hlenal] at hA
    have hP := list_sum_sub_le_sum allocOrder (fun kv => F64.val (F64.div kv.2 S))
      (fun kv => F64.val kv.2 / F64.val S) (fun kv => F64.val kv.2 / F64.val S / 2 ^ 53)
      (fun kv hkv => (helem kv hkv).2.1)
    have hdiv1 : (allocOrder.map (fun kv => F64.val kv.2 / F64.val S)).sum = W / F64.val S := by
      have : (fun kv : String × F64 => F64.val kv.2 / F64.val S)
          = (fun kv : String × F64 => F64.val kv.2 * (F64.val S)⁻¹) := by
        funext kv
        rw [div_eq_mul_inv]
      rw [this, List.sum_map_mul_right, hWal, div_eq_mul_inv]
    have hdiv2 : (allocOrder.map (fun kv => F64.val kv.2 / F64.val S / 2 ^ 53)).sum
        = W / F64.val S / 2 ^ 53 := by
      have : (fun kv : String × F64 => F64.val kv.2 / F64.val S / 2 ^ 53)
          = (fun kv : String × F64 => F64.val kv.2 * ((F64.val S)⁻¹ * (2 ^ 53)⁻¹)) := by
        funext kv
        rw [div_eq_mul_inv, div_eq_mul_inv, mul_assoc]
      rw [this, List.sum_map_mul_right, hWal, div_eq_mul_inv, div_eq_mul_inv, mul_assoc]
    rw [hdiv1, hdiv2] at hP
    have hρ2 : W / F64.val S ≤ 2 := by
      rw [div_le_iff₀ hSpos]
      linarith
    have hρ0 : 0 ≤ W / F64.val S := by positivity
    have hρ1 : |W / F64.val S - 1| ≤ 2 * (2 / 2 ^ 53 * (sumOrder.length : ℚ)) := by
      have h1 : W / F64.val S - 1 = (W - F64.val S) / F64.val S := by
        field_simp
      rw [h1, abs_div, abs_of_pos hSpos, div_le_iff₀ hSpos, abs_sub_comm]
      calc |F64.val S - W| ≤ 2 / 2 ^ 53 * (sumOrder.length : ℚ) * W := hSerr
        _ ≤ 2 / 2 ^ 53 * (sumOrder.length : ℚ) * (2 * F64.val S) :=
            mul_le_mul_of_nonneg_left hSlo (by positivity)
        _ = 2 * (2 / 2 ^ 53 * (sumOrder.length : ℚ)) * F64.val S := by ring
    generalize (allocOrder.map (fun kv => F64.val (F64.div kv.2 S))).sum = P at hA hP
    have hfun : (F64.val ∘ fun kv : String × F64 => roundedAmount kv.2 S T)
        = fun kv => F64.val (roundedAmount kv.2 S T) := rfl
    rw [hfun]
    generalize (allocOrder.map (fun kv => F64.val (roundedAmount kv.2 S T))).sum = A at hA ⊢
    have hP1 : |P - 1| ≤ 6 / 2 ^ 53 * (sumOrder.length : ℚ) := by
      have hP' := abs_le.mp hP
      have hρ1' := abs_le.mp hρ1
      have : W / F64.val S / 2 ^ 53 ≤ 2 / 2 ^ 53 :=
        div_le_div_of_nonneg_right hρ2 (by positivity)
      have : (2 : ℚ) / 2 ^ 53 ≤ 2 / 2 ^ 53 * (sumOrder.length : ℚ) := by
        have := mul_le_mul_of_nonneg_left hn1q (by positivity : (0 : ℚ) ≤ 2 / 2 ^ 53)
        linarith
      rw [abs_le]
      constructor <;> linarith [hP'.1, hP'.2, hρ1'.1, hρ1'.2]
    have hPT : |P * F64.val T - F64.val T| ≤ 6 / 2 ^ 53 * (sumOrder.length : ℚ) * 1000000000000 := by
      have h1 : P * F64.val T - F64.val T = (P - 1) * F64.val T := by ring
      rw [h1, abs_mul, abs_of_nonneg hT0]
      exact mul_le_mul hP1 hTle hT0 (by positivity)
    have hfinal : (68 : ℚ) / 10000 + 6 / 2 ^ 53 * 1000000000000 ≤ 1 / 100 := by norm_num
    have hA' := abs_le.mp hA
    have hPT' := abs_le.mp hPT
    have hmul := mul_le_mul_of_nonneg_left hfinal (by positivity : (0 : ℚ) ≤ (sumOrder.length : ℚ))
    rw [abs_le]
    constructor
    · linarith [hA'.1, hPT'.1]
    · linarith [hA'.2, hPT'.2]

/-- Rounding a positive integer below `2^53` to a double is exact. -/
theorem F64.roundPos_int (t : Nat) (ht : 0 < t) (hlt : t < 2 ^ 53) :
    F64.NonNeg (F64.roundPos false t 1) ∧ F64.val (F64.roundPos false t 1) = t := by
  obtain ⟨hlo, -⟩ := F64.ilog2_spec t 1 ht (by norm_num)
  have hk : F64.ilog2 t 1 < 53 := by
    have h1 : ((t : ℚ)) / ((1 : Nat) : ℚ) < (2 : ℚ) ^ (53 : Int) := by
      rw [show ((53 : Int)) = ((53 : Nat) : Int) by norm_num, zpow_natCast]
      simp only [Nat.cast_one, div_one]
      exact_mod_cast hlt
    exact (zpow_lt_zpow_iff_right₀ (by norm_num : (1 : ℚ) < 2)).mp (lt_of_le_of_lt hlo h1)
  have hE : max (F64.ilog2 t 1 - 52) (-1074) ≤ 0 := by omega
  generalize hEdef : max (F64.ilog2 t 1 - 52) (-1074) = E at hE
  have hEn : E.toNat = 0 := by omega
  have hrhe : F64.roundHalfEven (t * 2 ^ (-E).toNat) (1 * 2 ^ E.toNat) = t * 2 ^ (-E).toNat := by
    rw [hEn]
    simp [F64.roundHalfEven, Nat.mod_one]
  have hval : ((t * 2 ^ (-E).toNat : Nat) : ℚ) * (2 : ℚ) ^ E = t := by
    rw [F64.two_zpow_eq E, hEn]
    push_cast
    field_simp
  unfold F64.roundPos
  simp only [hEdef, hrhe]
  by_cases hm : t * 2 ^ (-E).toNat = 2 ^ 53
  · have hgt : ¬ (E + 1 > 971) := by omega
    simp only [hm, if_true, hgt, if_false]
    refine ⟨⟨_, _, rfl⟩, ?_⟩
    rw [F64.val_fin_false, ← hval, hm, zpow_add_one₀ (by norm_num : (2 : ℚ) ≠ 0)]
    push_cast
    ring
  · have hgt : ¬ (E > 971) := by omega
    simp only [hm, if_false, hgt]
    exact ⟨⟨_, _, rfl⟩, by rw [F64.val_fin_false, hval]⟩

/-- `math.Round` on a non-negative double below `2^52`: the result is exactly the integer
`t` with `t ≤ x + 1/2 < t + 1`. -/
theorem F64.round_exact {x : F64} (hx : F64.NonNeg x) (hlt : F64.val x < 2 ^ 52) :
    ∃ t : Nat, F64.NonNeg (F64.round x) ∧ F64.val (F64.round x) = t
      ∧ (t : ℚ) ≤ F64.val x + 1 / 2 ∧ F64.val x + 1 / 2 < (t : ℚ) + 1 := by
  obtain ⟨m, e, rfl⟩ := hx
  by_cases he : e ≥ 0
  · simp only [F64.round, he, if_true]
    refine ⟨m * 2 ^ e.toNat, ⟨m, e, rfl⟩, ?_, ?_, ?_⟩
    · rw [F64.val_fin_false, F64.two_zpow_eq e]
      have : (-e).toNat = 0 := by omega
      rw [this]
      push_cast
      ring
    all_goals
      rw [F64.val_fin_false, F64.two_zpow_eq e]
      have : (-e).toNat = 0 := by omega
      rw [this]
      push_cast
      norm_num
  · simp only [F64.round, he, if_false]
    rw [F64.val_fin_false] at hlt ⊢
    have hD : (0 : ℚ) < (2 : ℚ) ^ (-e).toNat := by positivity
    have hval : (m : ℚ) * (2 : ℚ) ^ e = (m : ℚ) / (2 : ℚ) ^ (-e).toNat := by
      rw [F64.two_zpow_eq e]
      have : e.toNat = 0 := by omega
      rw [this, pow_zero]
      field_simp
    have hdm := Nat.div_add_mod (2 * m + 2 ^ (-e).toNat) (2 * 2 ^ (-e).toNat)
    have hmod := Nat.mod_lt (2 * m + 2 ^ (-e).toNat) (by positivity : 0 < 2 * 2 ^ (-e).toNat)
    have hdmq : (2 : ℚ) * (2 : ℚ) ^ (-e).toNat
          * (((2 * m + 2 ^ (-e).toNat) / (2 * 2 ^ (-e).toNat) : Nat) : ℚ)
        + (((2 * m + 2 ^ (-e).toNat) % (2 * 2 ^ (-e).toNat) : Nat) : ℚ)
        = 2 * (m : ℚ) + (2 : ℚ) ^ (-e).toNat := by exact_mod_cast hdm
    have hmodq : (((2 * m + 2 ^ (-e).toNat) % (2 * 2 ^ (-e).toNat) : Nat) : ℚ)
        < 2 * (2 : ℚ) ^ (-e).toNat := by exact_mod_cast hmod
    have hmod0 : (0 : ℚ) ≤ (((2 * m + 2 ^ (-e).toNat) % (2 * 2 ^ (-e).toNat) : Nat) : ℚ) := by
      positivity
    generalize ((2 * m + 2 ^ (-e).toNat) / (2 * 2 ^ (-e).toNat) : Nat) = t at hdmq ⊢
    generalize (((2 * m + 2 ^ (-e).toNat) % (2 * 2 ^ (-e).toNat) : Nat) : ℚ) = r
      at hdmq hmodq hmod0
    rw [hval] at hlt ⊢
    generalize (2 : ℚ) ^ (-e).toNat = D at hD hdmq hmodq hlt ⊢
    have hm_eq : (m : ℚ) = D * (t : ℚ) + r / 2 - D / 2 := by linarith
    have hx_eq : (m : ℚ) / D = (t : ℚ) + r / (2 * D) - 1 / 2 := by
      rw [hm_eq]
      field_simp
      ring
    have hr1 : r / (2 * D) < 1 := by
      rw [div_lt_iff₀ (by positivity)]
      linarith
    have hr0 : 0 ≤ r / (2 * D) := by positivity
    have ht_lo : (t : ℚ) ≤ (m : ℚ) / D + 1 / 2 := by linarith
    have ht_hi : (m : ℚ) / D + 1 / 2 < (t : ℚ) + 1 := by linarith
    by_cases ht : t = 0
    · subst ht
      simp only [if_true]
      exact ⟨0, F64.nonNeg_signedZero, by rw [F64.val_signedZero]; simp, ht_lo, ht_hi⟩
    · simp only [ht, if_false]
      have htlt : t < 2 ^ 53 := by
        have h1 : (t : ℚ) < 2 ^ 53 := by
          have : (2 : ℚ) ^ 52 + 1 / 2 ≤ 2 ^ 53 := by norm_num
          linarith
        exact_mod_cast h1
      obtain ⟨h1, h2⟩ := F64.roundPos_int t (Nat.pos_of_ne_zero ht) htlt
      exact ⟨t, h1, h2, ht_lo, ht_hi⟩

/-- `%.2f` of a non-negative double that lies within half a cent of `t` cents prints
exactly `t` cents. -/
theorem F64.format2_cents {a : F64} (ha : F64.NonNeg a) (t : Nat)
    (hclose : |100 * F64.val a - t| < 1 / 2) :
    F64.format2 a = renderCents t := by
  obtain ⟨m, e, rfl⟩ := ha
  rw [F64.val_fin_false] at hclose
  have hden : 0 < 2 ^ (-e).toNat := by positivity
  have hr := F64.roundHalfEven_spec (m * 100 * 2 ^ e.toNat) (2 ^ (-e).toNat) hden
  have hq : (((m * 100 * 2 ^ e.toNat : Nat) : ℚ)) / ((2 ^ (-e).toNat : Nat) : ℚ)
      = 100 * ((m : ℚ) * (2 : ℚ) ^ e) := by
    rw [F64.two_zpow_eq e]
    push_cast
    ring
  rw [hq] at hr
  have hc : F64.roundHalfEven (m * 100 * 2 ^ e.toNat) (2 ^ (-e).toNat) = t := by
    have h1 : |((F64.roundHalfEven (m * 100 * 2 ^ e.toNat) (2 ^ (-e).toNat) : Nat) : ℚ) - t| < 1 := by
      have := abs_sub_le ((F64.roundHalfEven (m * 100 * 2 ^ e.toNat) (2 ^ (-e).toNat) : Nat) : ℚ)
        (100 * ((m : ℚ) * (2 : ℚ) ^ e)) t
      linarith
    rw [abs_lt] at h1
    have h2 : ((F64.roundHalfEven (m * 100 * 2 ^ e.toNat) (2 ^ (-e).toNat) : Nat) : Int) - t < 1 := by
      have : (((F64.roundHalfEven (m * 100 * 2 ^ e.toNat) (2 ^ (-e).toNat) : Nat) : Int) : ℚ)
          - ((t : Int) : ℚ) < ((1 : Int) : ℚ) := by
        push_cast
        exact h1.2
      exact_mod_cast this
    have h3 : (-1 : Int) < ((F64.roundHalfEven (m * 100 * 2 ^ e.toNat) (2 ^ (-e).toNat) : Nat) : Int)
        - t := by
      have : ((-1 : Int) : ℚ) < (((F64.roundHalfEven (m * 100 * 2 ^ e.toNat) (2 ^ (-e).toNat) : Nat)
          : Int) : ℚ) - ((t : Int) : ℚ) := by
        push_cast
        exact h1.1
      exact_mod_cast this
    omega
  simp only [F64.format2, hc, renderCents, Bool.false_eq_true, if_false]
  have hneg : ¬ ((t : Int) < 0) := by omega
  simp only [hneg, if_false, Int.natAbs_ofNat]

theorem roundHalfAwayFromZero_eq (x : ℚ) (hx : 0 ≤ x) (t : Nat)
    (hlo : (t : ℚ) ≤ x + 1 / 2) (hhi : x + 1 / 2 < (t : ℚ) + 1) :
    roundHalfAwayFromZero x = t := by
  unfold roundHalfAwayFromZero
  rw [if_pos hx, Int.floor_eq_iff]
  push_cast
  exact ⟨hlo, hhi⟩

/-- Rounding an amount of at most `4 × 10^12` to cents and printing it with `%.2f` gives
the two-decimal rendering of the integer nearest to the float64 product `r * 100`,
halves away from zero. -/
theorem cents_render {r : F64} (hr : F64.NonNeg r) (hle : F64.val r ≤ 4000000000000) :
    formattedAmount (F64.div (F64.round (F64.mul r (F64.ofNat 100))) (F64.ofNat 100))
      = "₹" ++ renderCents (roundHalfAwayFromZero (F64.val (F64.mul r (F64.ofNat 100)))) := by
  obtain ⟨hc, hcv⟩ := ofNat_100_nonNeg
  have hr0 := hr.val_nonneg
  have hb2 := two_pow_1023_big
  have hbig : (10 : ℚ) ^ 20 ≤ 10 ^ 300 := by norm_num
  have hη : (1 : ℚ) / 2 ^ 1075 ≤ 1 / 10 ^ 10 := by
    apply one_div_le_one_div_of_le (by positivity)
    norm_num
  have hs_lt : F64.val r * F64.val (F64.ofNat 100) < (2 : ℚ) ^ (1023 : Int) := by
    rw [hcv]
    have : F64.val r * 100 ≤ 10 ^ 20 := by linarith
    linarith
  obtain ⟨hs, hserr⟩ := F64.mul_spec hr hc hs_lt
  rw [hcv, abs_le] at hserr
  have hs0 := hs.val_nonneg
  have hsle : F64.val (F64.mul r (F64.ofNat 100)) ≤ 400000000000001 := by
    have : F64.val r * 100 / 2 ^ 53 ≤ 1 / 2 := by
      rw [div_le_iff₀ (by positivity)]
      norm_num
      linarith
    linarith [hserr.2]
  obtain ⟨t, ht, htv, htlo, hthi⟩ := F64.round_exact hs (by
    have : (400000000000001 : ℚ) < 2 ^ 52 := by norm_num
    linarith)
  have htle : (t : ℚ) ≤ 400000000000002 := by linarith
  have hcpos : 0 < F64.val (F64.ofNat 100) := by rw [hcv]; norm_num
  have ha_lt : F64.val (F64.round (F64.mul r (F64.ofNat 100))) / F64.val (F64.ofNat 100)
      < (2 : ℚ) ^ (1023 : Int) := by
    rw [hcv, htv]
    have : (t : ℚ) / 100 ≤ 10 ^ 20 := by
      rw [div_le_iff₀ (by norm_num)]
      linarith
    linarith
  obtain ⟨ha, haerr, -⟩ := F64.div_spec ht hc hcpos ha_lt
  rw [hcv, htv, abs_le] at haerr
  have ht0 : (0 : ℚ) ≤ (t : ℚ) := by positivity
  have e3 : (t : ℚ) / 100 / 2 ^ 53 ≤ 400000000000002 / 100 / 2 ^ 53 :=
    div_le_div_of_nonneg_right (div_le_div_of_nonneg_right htle (by norm_num)) (by positivity)
  have n3 : (400000000000002 : ℚ) / 100 / 2 ^ 53 ≤ 1 / 1000 := by norm_num
  have hclose : |100 * F64.val (F64.div (F64.round (F64.mul r (F64.ofNat 100))) (F64.ofNat 100))
      - t| < 1 / 2 := by
    rw [abs_lt]
    constructor <;> linarith [haerr.1, haerr.2]
  unfold formattedAmount
  rw [F64.format2_cents ha t hclose, roundHalfAwayFromZero_eq _ hs0 t htlo hthi]

/-- The float64 total weight of a table of positive weights is non-negative and within a
factor two of the exact total weight, which bounds every single weight. -/
theorem totalBudget_spec (sumOrder : List (String × F64)) (hne : sumOrder ≠ [])
    (hlen : sumOrder.length ≤ 1000000)
    (hw : ∀ kv ∈ sumOrder, kv.2.isFinite = true ∧ 1 / 10 ^ 100 ≤ F64.val kv.2
      ∧ F64.val kv.2 ≤ 10 ^ 100) :
    F64.NonNeg (totalBudget sumOrder)
    ∧ (sumOrder.map (fun kv => F64.val kv.2)).sum ≤ 2 * F64.val (totalBudget sumOrder)
    ∧ F64.val (totalBudget sumOrder) ≤ 2 * (sumOrder.map (fun kv => F64.val kv.2)).sum
    ∧ (sumOrder.map (fun kv => F64.val kv.2)).sum ≤ 10 ^ 106
    ∧ ∀ kv ∈ sumOrder, F64.NonNeg kv.2
        ∧ F64.val kv.2 ≤ (sumOrder.map (fun kv => F64.val kv.2)).sum := by
  have hb2 := two_pow_neg_1022_small
  have hb1 := two_pow_1023_big
  have hnn : ∀ kv ∈ sumOrder, F64.NonNeg kv.2 := fun kv hkv =>
    F64.nonNeg_of_val_pos (hw kv hkv).1 (lt_of_lt_of_le (by positivity) (hw kv hkv).2.1)
  have hnorm : ∀ kv ∈ sumOrder, F64.NonNeg kv.2 ∧ (2 : ℚ) ^ (-1022 : Int) ≤ F64.val kv.2 := by
    intro kv hkv
    refine ⟨hnn kv hkv, le_trans hb2 (le_trans ?_ (hw kv hkv).2.1)⟩
    apply one_div_le_one_div_of_le (by positivity)
    norm_num
  have hnq : (sumOrder.length : ℚ) ≤ 1000000 := by exact_mod_cast hlen
  have hWle : (sumOrder.map (fun kv => F64.val kv.2)).sum ≤ 10 ^ 106 := by
    have h1 := List.sum_le_card_nsmul (sumOrder.map (fun kv => F64.val kv.2)) (10 ^ 100) (by
      intro x hx
      obtain ⟨kv, hkv, rfl⟩ := List.mem_map.mp hx
      exact (hw kv hkv).2.2)
    rw [List.length_map, nsmul_eq_mul] at h1
    have h2 : (sumOrder.length : ℚ) * 10 ^ 100 ≤ 1000000 * 10 ^ 100 :=
      mul_le_mul_of_nonneg_right hnq (by positivity)
    have h3 : (1000000 : ℚ) * 10 ^ 100 = 10 ^ 106 := by norm_num
    linarith
  have hsingle : ∀ kv ∈ sumOrder,
      F64.val kv.2 ≤ (sumOrder.map (fun kv => F64.val kv.2)).sum := by
    intro kv hkv
    apply List.single_le_sum
    · intro x hx
      obtain ⟨kv1, hkv1, rfl⟩ := List.mem_map.mp hx
      exact (hnn kv1 hkv1).val_nonneg
    · exact List.mem_map_of_mem _ hkv
  have hWpos : 0 < (sumOrder.map (fun kv => F64.val kv.2)).sum := by
    cases hso : sumOrder with
    | nil => exact absurd hso hne
    | cons a l =>
      have ha : a ∈ sumOrder := by rw [hso]; exact List.mem_cons_self _ _
      have h1 := hsingle a ha
      have h2 : (0 : ℚ) < F64.val a.2 := lt_of_lt_of_le (by positivity) (hw a ha).2.1
      rw [hso] at h1
      linarith
  have hε : (2 : ℚ) / 2 ^ 53 * (sumOrder.length : ℚ) ≤ 1 / 1000000 := by
    have : (2 : ℚ) / 2 ^ 53 * (sumOrder.length : ℚ) ≤ 2 / 2 ^ 53 * 1000000 :=
      mul_le_mul_of_nonneg_left hnq (by positivity)
    have : (2 : ℚ) / 2 ^ 53 * 1000000 ≤ 1 / 1000000 := by norm_num
    linarith
  have hbig : (10 : ℚ) ^ 107 ≤ 10 ^ 300 := by norm_num
  obtain ⟨hS, hSerr⟩ := foldl_add_spec sumOrder F64.zero 0 0 F64.nonNeg_signedZero le_rfl le_rfl
    (by rw [val_zero]; simp) hnorm (by linarith) (by
      have : (2 : ℚ) * (0 + (sumOrder.map (fun kv => F64.val kv.2)).sum) ≤ 10 ^ 107 := by
        have : (10 : ℚ) ^ 107 = 10 * 10 ^ 106 := by norm_num
        linarith
      linarith)
  have hSdef : sumOrder.foldl (fun acc kv => F64.add acc kv.2) F64.zero = totalBudget sumOrder :=
    rfl
  rw [hSdef, zero_add, zero_add] at hSerr
  rw [hSdef] at hS
  have hSerr1 := abs_le.mp hSerr
  have hεW : (2 : ℚ) / 2 ^ 53 * (sumOrder.length : ℚ) * (sumOrder.map (fun kv => F64.val kv.2)).sum
      ≤ 1 / 1000000 * (sumOrder.map (fun kv => F64.val kv.2)).sum :=
    mul_le_mul_of_nonneg_right hε hWpos.le
  refine ⟨hS, by linarith [hSerr1.1], by linarith [hSerr1.2], hWle,
    fun kv hkv => ⟨hnn kv hkv, hsingle kv hkv⟩⟩

/-- The float64 raw amount of a category with a positive weight, for a total of at most
`10^12`, is non-negative and at most `4 × 10^12`. -/
theorem rawAmount_spec {w S T : F64} (hw : F64.NonNeg w) (hS : F64.NonNeg S)
    (hT : F64.NonNeg T) (W : ℚ) (hwmin : 1 / 10 ^ 100 ≤ F64.val w) (hwW : F64.val w ≤ W)
    (hSlo : W ≤ 2 * F64.val S) (hTle : F64.val T ≤ 1000000000000) :
    F64.NonNeg (F64.mul (F64.div w S) T)
    ∧ F64.val (F64.mul (F64.div w S) T) ≤ 4000000000000 := by
  have hw0 : 0 < F64.val w := lt_of_lt_of_le (by positivity) hwmin
  have hSpos : 0 < F64.val S := by linarith
  have hT0 := hT.val_nonneg
  have hb1 := two_pow_1023_big
  have hbig : (10 : ℚ) ^ 20 ≤ 10 ^ 300 := by norm_num
  have hη : (1 : ℚ) / 2 ^ 1075 ≤ 1 / 10 ^ 10 := by
    apply one_div_le_one_div_of_le (by positivity)
    norm_num
  have hx2 : F64.val w / F64.val S ≤ 2 := by
    rw [div_le_iff₀ hSpos]
    linarith
  have hx0 : 0 < F64.val w / F64.val S := by positivity
  obtain ⟨hp, hperr, -⟩ := F64.div_spec hw hS hSpos (by linarith)
  have hp0 := hp.val_nonneg
  have hple : F64.val (F64.div w S) ≤ 3 := by
    have := (abs_le.mp hperr).2
    have : F64.val w / F64.val S / 2 ^ 53 ≤ 2 / 2 ^ 53 :=
      div_le_div_of_nonneg_right hx2 (by positivity)
    have : (2 : ℚ) / 2 ^ 53 ≤ 1 / 2 := by norm_num
    linarith
  have hpT : F64.val (F64.div w S) * F64.val T ≤ 3 * 1000000000000 :=
    mul_le_mul hple hTle hT0 (by norm_num)
  obtain ⟨hr, hrerr⟩ := F64.mul_spec hp hT (by linarith)
  have hrerr1 := abs_le.mp hrerr
  have hpTu : F64.val (F64.div w S) * F64.val T / 2 ^ 53 ≤ 3 * 1000000000000 / 2 ^ 53 :=
    div_le_div_of_nonneg_right hpT (by positivity)
  have n1 : (3 : ℚ) * 1000000000000 / 2 ^ 53 ≤ 34 / 100000 := by norm_num
  exact ⟨hr, by linarith [hrerr1.2]⟩

-- ===========================================================================
-- Part 6. The claims
-- ===========================================================================

/-- C1 (counterexample): with the all-zero table `A:0` (totalWeight = 0) and total = 100
the handler does not fail: it divides 0 by 0 and answers 200 with the entry `₹NaN`. -/
theorem C1_zero_weights_not_rejected :
    totalBudget [("A", F64.zero)] = F64.zero ∧
    F64.lt F64.zero (F64.ofNat 100) = true ∧
    BudgetBasedTaxDistributionHandler (some (F64.ofNat 100)) [("A", F64.zero)] [("A", F64.zero)]
      = ⟨200, .budgetDistribution (F64.ofNat 100) [("A", "₹NaN")]⟩ := by
  decide

/-- C1 (amended): for every total > 0 and every weight table whose weights sum to
totalWeight ≤ 0, the handler has no DegenerateWeights result: it answers 200 with a
distribution whose keys are exactly the table's categories, and the empty distribution
for the empty table. -/
theorem C1_degenerate_table_served (budgetData sumOrder allocOrder : List (String × F64))
    (total : F64) (hkeys : (budgetData.map Prod.fst).Nodup)
    (hsum : sumOrder.Perm budgetData) (halloc : allocOrder.Perm budgetData)
    (htotal : F64.lt F64.zero total = true)
    (_hweight : F64.le (totalBudget sumOrder) F64.zero = true) :
    ∃ dist, BudgetBasedTaxDistributionHandler (some total) sumOrder allocOrder
        = ⟨200, .budgetDistribution total dist⟩
      ∧ (dist.map Prod.fst).Perm (budgetData.map Prod.fst)
      ∧ (budgetData = [] → dist = []) := by
  have hn : (allocOrder.map Prod.fst).Nodup := (halloc.map Prod.fst).nodup_iff.mpr hkeys
  refine ⟨_, handler_of_pos total sumOrder allocOrder htotal, ?_, ?_⟩
  · rw [distributedTax_eq_map _ _ _ hn,
      keys_map_snd (fun w => formattedAmount (roundedAmount w (totalBudget sumOrder) total))]
    exact halloc.map Prod.fst
  · intro he
    subst he
    rw [List.perm_nil.mp halloc]
    rfl

/-- C1 (witness): the empty table, total = 100. -/
theorem C1_degenerate_table_served_witness :
    ∃ dist, BudgetBasedTaxDistributionHandler (some (F64.ofNat 100)) [] []
        = ⟨200, .budgetDistribution (F64.ofNat 100) dist⟩
      ∧ (dist.map Prod.fst).Perm (([] : List (String × F64)).map Prod.fst)
      ∧ (([] : List (String × F64)) = [] → dist = []) :=
  C1_degenerate_table_served [] [] [] (F64.ofNat 100) (by decide) (List.Perm.refl _)
    (List.Perm.refl _) (by decide) (by decide)

/-- C2 (code at the failing input): an authenticated request with total_tax_paid = -100
is not rejected; the handler computes the five negative amounts, sends the INSERT and
answers 200. -/
theorem C2_negative_total_persisted :
    TaxDistributionHandler (some "11") (some (F64.ofRatio true 100 1)) sectorDistribution true
      = (⟨200, .taxDistribution 2024
            [("Education", F64.ofRatio true 15 1), ("Healthcare", F64.ofRatio true 20 1),
             ("Defense", F64.ofRatio true 30 1), ("Infrastructure", F64.ofRatio true 25 1),
             ("Other", F64.ofRatio true 10 1)]⟩,
         [.insertTaxRecord "11" (F64.ofRatio true 100 1) (F64.ofRatio true 15 1)
            (F64.ofRatio true 20 1) (F64.ofRatio true 30 1) (F64.ofRatio true 25 1)
            (F64.ofRatio true 10 1)]) := by
  decide

/-- C3 (counterexample): for the table `A:1, B:2, C:3` and total = 10^16 the rounded
amounts are 1666666666666666.5, 3333333333333333 and 5000000000000000; they sum to
total - 0.5, further from total than 0.03. -/
theorem C3_dynamic_sum_drifts :
    F64.lt F64.zero (F64.ofNat 10000000000000000) = true
    ∧ [("A", F64.ofNat 1), ("B", F64.ofNat 2), ("C", F64.ofNat 3)].map
        (fun kv => roundedAmount kv.2
          (totalBudget [("A", F64.ofNat 1), ("B", F64.ofNat 2), ("C", F64.ofNat 3)])
          (F64.ofNat 10000000000000000))
      = [F64.ofRatio false 3333333333333333 2, F64.ofNat 3333333333333333,
         F64.ofNat 5000000000000000]
    ∧ BudgetBasedTaxDistributionHandler (some (F64.ofNat 10000000000000000))
        [("A", F64.ofNat 1), ("B", F64.ofNat 2), ("C", F64.ofNat 3)]
        [("A", F64.ofNat 1), ("B", F64.ofNat 2), ("C", F64.ofNat 3)]
      = ⟨200, .budgetDistribution (F64.ofNat 10000000000000000)
          [("A", "₹1666666666666666.50"), ("B", "₹3333333333333333.00"),
           ("C", "₹5000000000000000.00")]⟩
    ∧ ¬ amountsWithin (F64.ofNat 10000000000000000)
        ([("A", F64.ofNat 1), ("B", F64.ofNat 2), ("C", F64.ofNat 3)].map
          (fun kv => roundedAmount kv.2
            (totalBudget [("A", F64.ofNat 1), ("B", F64.ofNat 2), ("C", F64.ofNat 3)])
            (F64.ofNat 10000000000000000))) := by
  have hamounts : [("A", F64.ofNat 1), ("B", F64.ofNat 2), ("C", F64.ofNat 3)].map
        (fun kv => roundedAmount kv.2
          (totalBudget [("A", F64.ofNat 1), ("B", F64.ofNat 2), ("C", F64.ofNat 3)])
          (F64.ofNat 10000000000000000))
      = [F64.ofRatio false 3333333333333333 2, F64.ofNat 3333333333333333,
         F64.ofNat 5000000000000000] := by decide
  refine ⟨by decide, hamounts, by decide, ?_⟩
  rw [hamounts]
  intro h
  have hs : ([F64.ofRatio false 3333333333333333 2, F64.ofNat 3333333333333333,
      F64.ofNat 5000000000000000].map F64.val).sum - (F64.ofNat 10000000000000000).val
      = -1 / 2 := by decide!
  have h2 := h.2
  rw [hs] at h2
  norm_num [abs_le] at h2

/-- C3 (amended): for every float64 total with 0 < total ≤ 10^12 and every non-empty
table of at most 10^6 categories whose weights are finite and lie between 10^-100 and
10^100, the handler answers 200 with the formatted rounded amounts, every rounded amount
is finite, and the exact sum of the rounded amounts differs from total by at most
0.01 × categoryCount. -/
theorem C3_dynamic_sum_within (budgetData sumOrder allocOrder : List (String × F64))
    (total : F64) (hkeys : (budgetData.map Prod.fst).Nodup)
    (hsum : sumOrder.Perm budgetData) (halloc : allocOrder.Perm budgetData)
    (hne : budgetData ≠ []) (hlen : budgetData.length ≤ 1000000)
    (hweights : ∀ kv ∈ budgetData, kv.2.isFinite = true ∧ 1 / 10 ^ 100 ≤ F64.val kv.2
      ∧ F64.val kv.2 ≤ 10 ^ 100)
    (hpos : F64.lt F64.zero total = true) (hfin : total.isFinite = true)
    (hle : F64.val total ≤ 1000000000000) :
    BudgetBasedTaxDistributionHandler (some total) sumOrder allocOrder
      = ⟨200, .budgetDistribution total (allocOrder.map (fun kv =>
          (kv.1, formattedAmount (roundedAmount kv.2 (totalBudget sumOrder) total))))⟩
    ∧ amountsWithin total
        (allocOrder.map (fun kv => roundedAmount kv.2 (totalBudget sumOrder) total)) := by
  have hn : (allocOrder.map Prod.fst).Nodup := (halloc.map Prod.fst).nodup_iff.mpr hkeys
  constructor
  · rw [handler_of_pos total sumOrder allocOrder hpos, distributedTax_eq_map _ _ _ hn]
  · have hne' : sumOrder ≠ [] := by
      intro h
      rw [h] at hsum
      exact hne (List.nil_perm.mp hsum)
    exact dynamic_sum_bound sumOrder allocOrder total (halloc.trans hsum.symm) hne'
      (by rw [hsum.length_eq]; exact hlen)
      (fun kv hkv => hweights kv (hsum.subset hkv))
      (F64.nonNeg_of_pos hpos hfin).1 hle

/-- C3 (witness): the table `A:1, B:2, C:3` with total = 100: the rounded amounts sum to
100 within 0.03. -/
theorem C3_dynamic_sum_within_witness :
    BudgetBasedTaxDistributionHandler (some (F64.ofNat 100))
        [("A", F64.ofNat 1), ("B", F64.ofNat 2), ("C", F64.ofNat 3)]
        [("A", F64.ofNat 1), ("B", F64.ofNat 2), ("C", F64.ofNat 3)]
      = ⟨200, .budgetDistribution (F64.ofNat 100)
          ([("A", F64.ofNat 1), ("B", F64.ofNat 2), ("C", F64.ofNat 3)].map (fun kv =>
            (kv.1, formattedAmount (roundedAmount kv.2
              (totalBudget [("A", F64.ofNat 1), ("B", F64.ofNat 2), ("C", F64.ofNat 3)])
              (F64.ofNat 100)))))⟩
    ∧ amountsWithin (F64.ofNat 100)
        ([("A", F64.ofNat 1), ("B", F64.ofNat 2), ("C", F64.ofNat 3)].map
          (fun kv => roundedAmount kv.2
            (totalBudget [("A", F64.ofNat 1), ("B", F64.ofNat 2), ("C", F64.ofNat 3)])
            (F64.ofNat 100))) :=
  C3_dynamic_sum_within [("A", F64.ofNat 1), ("B", F64.ofNat 2), ("C", F64.ofNat 3)]
    [("A", F64.ofNat 1), ("B", F64.ofNat 2), ("C", F64.ofNat 3)]
    [("A", F64.ofNat 1), ("B", F64.ofNat 2), ("C", F64.ofNat 3)] (F64.ofNat 100)
    (by decide) (List.Perm.refl _) (List.Perm.refl _) (by decide) (by decide)
    (by decide!) (by decide) (by decide) (by decide!)

/-- C4 (counterexample): the entry is not the rendering of `(weight / totalWeight) × total`
rounded half away from zero to two decimals.  For the table `A:1, B:39` and total = 19 the
exact amount of B is 18.525, which rounds to 18.53, and the handler returns `₹18.52`.  For
the table `A:1, B:1` and total = 0.03 the float64 raw amount of A is below 0.015, which
rounds to 0.01, and the handler returns `₹0.02`. -/
theorem C4_entry_not_exact_rounding :
    (BudgetBasedTaxDistributionHandler (some (F64.ofNat 19))
        [("A", F64.ofNat 1), ("B", F64.ofNat 39)] [("A", F64.ofNat 1), ("B", F64.ofNat 39)]
        = ⟨200, .budgetDistribution (F64.ofNat 19) [("A", "₹0.48"), ("B", "₹18.52")]⟩
      ∧ "₹" ++ renderCents (roundHalfAwayFromZero
          (F64.val (F64.ofNat 39) / (F64.val (F64.ofNat 1) + F64.val (F64.ofNat 39))
            * F64.val (F64.ofNat 19) * 100)) = "₹18.53")
    ∧ (BudgetBasedTaxDistributionHandler (some (F64.ofRatio false 3 100))
        [("A", F64.ofNat 1), ("B", F64.ofNat 1)] [("A", F64.ofNat 1), ("B", F64.ofNat 1)]
        = ⟨200, .budgetDistribution (F64.ofRatio false 3 100) [("A", "₹0.02"), ("B", "₹0.02")]⟩
      ∧ F64.val (F64.mul (F64.div (F64.ofNat 1)
            (totalBudget [("A", F64.ofNat 1), ("B", F64.ofNat 1)])) (F64.ofRatio false 3 100))
          < 15 / 1000
      ∧ "₹" ++ renderCents (roundHalfAwayFromZero
          (F64.val (F64.mul (F64.div (F64.ofNat 1)
            (totalBudget [("A", F64.ofNat 1), ("B", F64.ofNat 1)])) (F64.ofRatio false 3 100))
            * 100)) = "₹0.01") := by
  refine ⟨⟨by decide, by decide!⟩, by decide, by decide!, by decide!⟩

/-- C4 (amended): for every total > 0 the handler answers 200 with a distribution whose
keys are exactly the table's categories.  When moreover total ≤ 10^12 and the table is
non-empty, has at most 10^6 categories and finite weights between 10^-100 and 10^100, the
entry of a category with weight `w` is `₹` followed by the two-decimal rendering of
`c / 100`, where `c` is the integer nearest, halves away from zero, to the float64 product
`rawAmount * 100` and `rawAmount` is the float64 value `(w / totalBudget) * total`; the
table `A:1, B:3` with total = 100 gives `A = ₹25.00`, `B = ₹75.00`. -/
theorem C4_entries_from_float_cents (budgetData sumOrder allocOrder : List (String × F64))
    (total : F64) (hkeys : (budgetData.map Prod.fst).Nodup)
    (hsum : sumOrder.Perm budgetData) (halloc : allocOrder.Perm budgetData)
    (htotal : F64.lt F64.zero total = true) :
    BudgetBasedTaxDistributionHandler (some total) sumOrder allocOrder
      = ⟨200, .budgetDistribution total
          (distributedTax (totalBudget sumOrder) total allocOrder)⟩
    ∧ ((distributedTax (totalBudget sumOrder) total allocOrder).map Prod.fst).Perm
        (budgetData.map Prod.fst)
    ∧ (budgetData ≠ [] → budgetData.length ≤ 1000000 →
        (∀ kv ∈ budgetData, kv.2.isFinite = true ∧ 1 / 10 ^ 100 ≤ F64.val kv.2
          ∧ F64.val kv.2 ≤ 10 ^ 100) →
        total.isFinite = true → F64.val total ≤ 1000000000000 →
        ∀ k w, (k, w) ∈ budgetData →
          GoMap.get? (distributedTax (totalBudget sumOrder) total allocOrder) k
            = some ("₹" ++ renderCents (roundHalfAwayFromZero (F64.val
                (F64.mul (F64.mul (F64.div w (totalBudget sumOrder)) total) (F64.ofNat 100))))))
    ∧ BudgetBasedTaxDistributionHandler (some (F64.ofNat 100))
        [("A", F64.ofNat 1), ("B", F64.ofNat 3)] [("A", F64.ofNat 1), ("B", F64.ofNat 3)]
        = ⟨200, .budgetDistribution (F64.ofNat 100) [("A", "₹25.00"), ("B", "₹75.00")]⟩ := by
  have hn : (allocOrder.map Prod.fst).Nodup := (halloc.map Prod.fst).nodup_iff.mpr hkeys
  refine ⟨handler_of_pos total sumOrder allocOrder htotal, ?_, ?_, by decide⟩
  · rw [distributedTax_eq_map _ _ _ hn,
      keys_map_snd (fun w => formattedAmount (roundedAmount w (totalBudget sumOrder) total))]
    exact halloc.map Prod.fst
  · intro hne hlen hweights hfin hle k w hmem
    have hne1 : sumOrder ≠ [] := by
      intro h
      rw [h] at hsum
      exact hne (List.nil_perm.mp hsum)
    obtain ⟨hS, hSlo, -, -, helem⟩ := totalBudget_spec sumOrder hne1
      (by rw [hsum.length_eq]; exact hlen) (fun kv hkv => hweights kv (hsum.subset hkv))
    obtain ⟨hwn, hwW⟩ := helem (k, w) (hsum.symm.subset hmem)
    obtain ⟨hr, hrle⟩ := rawAmount_spec hwn hS (F64.nonNeg_of_pos htotal hfin).1 _
      (hweights (k, w) hmem).2.1 hwW hSlo hle
    rw [distributedTax_eq_map _ _ _ hn,
      GoMap.get?_map (fun w => formattedAmount (roundedAmount w (totalBudget sumOrder) total)),
      GoMap.get?_perm halloc hn k, GoMap.get?_of_mem hkeys hmem, Option.map_some']
    exact congrArg some (cents_render hr hrle)

/-- C4 (witness): the table `A:1, B:39` with total = 19, whose amounts 0.475 and 18.525
fall on half cents. -/
theorem C4_entries_from_float_cents_witness :
    BudgetBasedTaxDistributionHandler (some (F64.ofNat 19))
        [("A", F64.ofNat 1), ("B", F64.ofNat 39)] [("A", F64.ofNat 1), ("B", F64.ofNat 39)]
      = ⟨200, .budgetDistribution (F64.ofNat 19)
          (distributedTax (totalBudget [("A", F64.ofNat 1), ("B", F64.ofNat 39)]) (F64.ofNat 19)
            [("A", F64.ofNat 1), ("B", F64.ofNat 39)])⟩
    ∧ ∀ k w, (k, w) ∈ [("A", F64.ofNat 1), ("B", F64.ofNat 39)] →
        GoMap.get? (distributedTax (totalBudget [("A", F64.ofNat 1), ("B", F64.ofNat 39)])
            (F64.ofNat 19) [("A", F64.ofNat 1), ("B", F64.ofNat 39)]) k
          = some ("₹" ++ renderCents (roundHalfAwayFromZero (F64.val
              (F64.mul (F64.mul (F64.div w (totalBudget [("A", F64.ofNat 1), ("B", F64.ofNat 39)]))
                (F64.ofNat 19)) (F64.ofNat 100))))) :=
  ⟨(C4_entries_from_float_cents [("A", F64.ofNat 1), ("B", F64.ofNat 39)]
      [("A", F64.ofNat 1), ("B", F64.ofNat 39)] [("A", F64.ofNat 1), ("B", F64.ofNat 39)]
      (F64.ofNat 19) (by decide) (List.Perm.refl _) (List.Perm.refl _) (by decide)).1,
   (C4_entries_from_float_cents [("A", F64.ofNat 1), ("B", F64.ofNat 39)]
      [("A", F64.ofNat 1), ("B", F64.ofNat 39)] [("A", F64.ofNat 1), ("B", F64.ofNat 39)]
      (F64.ofNat 19) (by decide) (List.Perm.refl _) (List.Perm.refl _) (by decide)).2.2.1
      (by decide) (by decide) (by decide!) (by decide) (by decide!)⟩

/-- C5: for every total and every enumeration of `sectorDistribution`, the computed
distribution has exactly the five keys Education, Healthcare, Defense, Infrastructure and
Other, with amounts total × 0.15, × 0.20, × 0.30, × 0.25 and × 0.10; for total = 1000 the
amounts are 150, 200, 300, 250 and 100. -/
theorem C5_fixed_distribution (total : F64) (order : List (String × F64))
    (horder : order.Perm sectorDistribution) :
    ((distribution total order).map Prod.fst).Perm
        ["Education", "Healthcare", "Defense", "Infrastructure", "Other"]
    ∧ GoMap.get? (distribution total order) "Education"
        = some (F64.mul total (F64.ofRatio false 15 100))
    ∧ GoMap.get? (distribution total order) "Healthcare"
        = some (F64.mul total (F64.ofRatio false 20 100))
    ∧ GoMap.get? (distribution total order) "Defense"
        = some (F64.mul total (F64.ofRatio false 30 100))
    ∧ GoMap.get? (distribution total order) "Infrastructure"
        = some (F64.mul total (F64.ofRatio false 25 100))
    ∧ GoMap.get? (distribution total order) "Other"
        = some (F64.mul total (F64.ofRatio false 10 100))
    ∧ (total = F64.ofNat 1000 →
        GoMap.get? (distribution total order) "Education" = some (F64.ofNat 150)
        ∧ GoMap.get? (distribution total order) "Healthcare" = some (F64.ofNat 200)
        ∧ GoMap.get? (distribution total order) "Defense" = some (F64.ofNat 300)
        ∧ GoMap.get? (distribution total order) "Infrastructure" = some (F64.ofNat 250)
        ∧ GoMap.get? (distribution total order) "Other" = some (F64.ofNat 100)) := by
  have hk : (sectorDistribution.map Prod.fst).Nodup := by decide
  have hn : (order.map Prod.fst).Nodup := (horder.map Prod.fst).nodup_iff.mpr hk
  have hget : ∀ k w, (k, w) ∈ sectorDistribution →
      GoMap.get? (distribution total order) k = some (F64.mul total w) := by
    intro k w hmem
    rw [distribution_eq_map _ _ hn, GoMap.get?_map (fun w => F64.mul total w),
      GoMap.get?_perm horder hn k, GoMap.get?_of_mem hk hmem]
    rfl
  have h1 := hget "Education" (F64.ofRatio false 15 100) (by simp [sectorDistribution])
  have h2 := hget "Healthcare" (F64.ofRatio false 20 100) (by simp [sectorDistribution])
  have h3 := hget "Defense" (F64.ofRatio false 30 100) (by simp [sectorDistribution])
  have h4 := hget "Infrastructure" (F64.ofRatio false 25 100) (by simp [sectorDistribution])
  have h5 := hget "Other" (F64.ofRatio false 10 100) (by simp [sectorDistribution])
  refine ⟨?_, h1, h2, h3, h4, h5, ?_⟩
  · rw [distribution_eq_map _ _ hn, keys_map_snd (fun w => F64.mul total w)]
    exact horder.map Prod.fst
  · intro ht
    subst ht
    rw [h1, h2, h3, h4, h5]
    decide

/-- C5 (witness): total = 1000 with the table enumerated as written in the source. -/
theorem C5_fixed_distribution_witness :
    GoMap.get? (distribution (F64.ofNat 1000) sectorDistribution) "Education"
        = some (F64.ofNat 150)
    ∧ GoMap.get? (distribution (F64.ofNat 1000) sectorDistribution) "Healthcare"
        = some (F64.ofNat 200)
    ∧ GoMap.get? (distribution (F64.ofNat 1000) sectorDistribution) "Defense"
        = some (F64.ofNat 300)
    ∧ GoMap.get? (distribution (F64.ofNat 1000) sectorDistribution) "Infrastructure"
        = some (F64.ofNat 250)
    ∧ GoMap.get? (distribution (F64.ofNat 1000) sectorDistribution) "Other"
        = some (F64.ofNat 100) :=
  (C5_fixed_distribution (F64.ofNat 1000) sectorDistribution (List.Perm.refl _)).2.2.2.2.2.2 rfl

/-- C6 (counterexample): a POST to `/api/budget-tax-distribution` without a token and
with total = 100 is rejected by the middleware with 401 `Missing token`. -/
theorem C6_dynamic_route_requires_token :
    serve sampleEnv ⟨"POST", "/api/budget-tax-distribution", "", some (F64.ofNat 100)⟩
      = (⟨401, .error "Missing token"⟩, []) := by
  decide

/-- C6 (amended): the dynamic endpoint is a route of the authenticated group.  A request
without an `Authorization` header is answered 401 `Missing token` and the handler does
not run; a request whose token the middleware accepts and whose total is > 0 reaches
validation and allocation and is answered 200 with the formatted breakdown. -/
theorem C6_dynamic_route_authenticated (env : Env) (req : Request)
    (hmethod : req.method = "POST") (hpath : req.path = "/api/budget-tax-distribution") :
    (req.authorization = "" → serve env req = (⟨401, .error "Missing token"⟩, []))
    ∧ (∀ userID total, req.authorization ≠ "" →
        env.parseJWT (trimBearer req.authorization) = .claims (some userID) →
        req.bind = some total → F64.lt F64.zero total = true →
        serve env req = (⟨200, .budgetDistribution total
          (distributedTax (totalBudget env.sumOrder) total env.allocOrder)⟩, [])) := by
  have hroute : routes req.method req.path = some (.budgetTaxDistribution, true) := by
    rw [hmethod, hpath]; decide
  constructor
  · intro hauth
    simp [serve, hroute, AuthMiddleware, hauth]
  · intro userID total hauth hjwt hbind htotal
    simp [serve, hroute, AuthMiddleware, hauth, hjwt, runHandler, hbind,
      handler_of_pos total _ _ htotal]

/-- C6 (witness): the same request without a token, and with the token `good`. -/
theorem C6_dynamic_route_authenticated_witness :
    serve sampleEnv ⟨"POST", "/api/budget-tax-distribution", "", some (F64.ofNat 100)⟩
        = (⟨401, .error "Missing token"⟩, [])
    ∧ serve sampleEnv
        ⟨"POST", "/api/budget-tax-distribution", "Bearer good", some (F64.ofNat 100)⟩
        = (⟨200, .budgetDistribution (F64.ofNat 100)
            (distributedTax (totalBudget sampleEnv.sumOrder) (F64.ofNat 100)
              sampleEnv.allocOrder)⟩, []) :=
  ⟨(C6_dynamic_route_authenticated sampleEnv
      ⟨"POST", "/api/budget-tax-distribution", "", some (F64.ofNat 100)⟩ rfl rfl).1 rfl,
   (C6_dynamic_route_authenticated sampleEnv
      ⟨"POST", "/api/budget-tax-distribution", "Bearer good", some (F64.ofNat 100)⟩
      rfl rfl).2 "11" (F64.ofNat 100) (by decide) (by decide!) rfl (by decide)⟩

/-- C7 (counterexample): a `budget.json` holding the empty object is read and parsed
without error, and the empty table is installed. -/
theorem C7_empty_table_installed :
    loadBudgetData (some "\x7b\x7d") (fun s => if s = "\x7b\x7d" then some [] else none)
      = .loaded [] := by
  decide

/-- C7 (amended): `loadBudgetData` fails fatally exactly when the file cannot be read or
its content cannot be parsed; every mapping the parser yields, whatever its size and
weights, is installed as it is. -/
theorem C7_load_installs_parsed (readFile : Option String)
    (unmarshal : String → Option (List (String × F64))) :
    ((∃ msg, loadBudgetData readFile unmarshal = .fatal msg) ↔
        (readFile = none ∨ ∃ data, readFile = some data ∧ unmarshal data = none))
    ∧ (∀ data table, readFile = some data → unmarshal data = some table →
        loadBudgetData readFile unmarshal = .loaded table) := by
  constructor
  · constructor
    · rintro ⟨msg, h⟩
      cases hr : readFile with
      | none => exact Or.inl rfl
      | some data =>
        right
        refine ⟨data, rfl, ?_⟩
        cases hu : unmarshal data with
        | none => rfl
        | some m => simp [loadBudgetData, hr, hu] at h
    · rintro (h | ⟨data, hr, hu⟩)
      · exact ⟨"Error reading budget.json", by simp [loadBudgetData, h]⟩
      · exact ⟨"Error parsing budget.json", by simp [loadBudgetData, hr, hu]⟩
  · intro data table hr hu
    simp [loadBudgetData, hr, hu]

/-- C7 (witness): the empty object and a table with a single zero weight are installed. -/
theorem C7_load_installs_parsed_witness :
    loadBudgetData (some "\x7b\x7d") (fun _ => some []) = .loaded []
    ∧ loadBudgetData (some "z") (fun _ => some [("A", F64.zero)])
        = .loaded [("A", F64.zero)] :=
  ⟨(C7_load_installs_parsed (some "\x7b\x7d") (fun _ => some [])).2 "\x7b\x7d" [] rfl rfl,
   (C7_load_installs_parsed (some "z") (fun _ => some [("A", F64.zero)])).2 "z"
      [("A", F64.zero)] rfl rfl⟩

/-- C8: a request whose total_tax_paid is ≤ 0 is answered 400 `Tax amount must be greater
than zero`, whatever the budget table, with no distribution in the body; a request whose
total_tax_paid is > 0 passes the validation and is answered 200 with the distribution. -/
theorem C8_dynamic_validation (total : F64) (sumOrder allocOrder : List (String × F64)) :
    (F64.le total F64.zero = true →
      BudgetBasedTaxDistributionHandler (some total) sumOrder allocOrder
        = ⟨400, .error "Tax amount must be greater than zero"⟩)
    ∧ (F64.lt F64.zero total = true →
      BudgetBasedTaxDistributionHandler (some total) sumOrder allocOrder
        = ⟨200, .budgetDistribution total
            (distributedTax (totalBudget sumOrder) total allocOrder)⟩) := by
  constructor
  · intro h
    simp [BudgetBasedTaxDistributionHandler, h]
  · exact handler_of_pos total sumOrder allocOrder

/-- C8 (witness): total = -5 is rejected, total = 100 is served. -/
theorem C8_dynamic_validation_witness :
    BudgetBasedTaxDistributionHandler (some (F64.ofRatio true 5 1)) sampleBudget sampleBudget
        = ⟨400, .error "Tax amount must be greater than zero"⟩
    ∧ BudgetBasedTaxDistributionHandler (some (F64.ofNat 100)) sampleBudget sampleBudget
        = ⟨200, .budgetDistribution (F64.ofNat 100)
            (distributedTax (totalBudget sampleBudget) (F64.ofNat 100) sampleBudget)⟩ :=
  ⟨(C8_dynamic_validation (F64.ofRatio true 5 1) sampleBudget sampleBudget).1 (by decide),
   (C8_dynamic_validation (F64.ofNat 100) sampleBudget sampleBudget).2 (by decide)⟩

/-- C9 (counterexample): for total = 9000000000000001 the five float64 amounts sum to
total - 0.375, further from total than 0.05. -/
theorem C9_fixed_sum_drifts :
    F64.lt F64.zero (F64.ofNat 9000000000000001) = true
    ∧ (distribution (F64.ofNat 9000000000000001) sectorDistribution).map Prod.snd
        = [F64.ofNat 1350000000000000, F64.ofRatio false 7200000000000001 4,
           F64.ofNat 2700000000000000, F64.ofRatio false 9000000000000001 4,
           F64.ofRatio false 7200000000000001 8]
    ∧ ¬ amountsWithin (F64.ofNat 9000000000000001)
        ((distribution (F64.ofNat 9000000000000001) sectorDistribution).map Prod.snd) := by
  refine ⟨by decide, by decide, ?_⟩
  intro h
  have hs : (((distribution (F64.ofNat 9000000000000001) sectorDistribution).map Prod.snd).map
      F64.val).sum - (F64.ofNat 9000000000000001).val = -3 / 8 := by decide!
  have h2 := h.2
  rw [hs] at h2
  have hl : ((distribution (F64.ofNat 9000000000000001) sectorDistribution).map Prod.snd).length
      = 5 := by decide
  rw [hl] at h2
  norm_num [abs_le] at h2

/-- C9 (amended): for every float64 total with 0 < total ≤ 4 × 10^14 and every enumeration
of `sectorDistribution`, the five amounts are finite and their exact sum differs from total
by at most 0.01 × 5 = 0.05. -/
theorem C9_fixed_sum_within (total : F64) (order : List (String × F64))
    (horder : order.Perm sectorDistribution)
    (hpos : F64.lt F64.zero total = true) (hfin : total.isFinite = true)
    (hle : F64.val total ≤ 400000000000000) :
    amountsWithin total ((distribution total order).map Prod.snd) := by
  have hk : (sectorDistribution.map Prod.fst).Nodup := by decide
  have hn : (order.map Prod.fst).Nodup := (horder.map Prod.fst).nodup_iff.mpr hk
  obtain ⟨hT, hT0⟩ := F64.nonNeg_of_pos hpos hfin
  have hl : ∀ kv ∈ order, F64.NonNeg kv.2 ∧ F64.val kv.2 ≤ 1 :=
    fun kv hkv => sectorDistribution_nonNeg kv (horder.subset hkv)
  obtain ⟨hf, hs⟩ := fixed_sum_bound total hT hle order hl
  have hsum1 : (order.map (fun kv => F64.val kv.2)).sum = 1 := by
    rw [sum_val_perm F64.val horder, sectorDistribution_sum]
  have hlen : order.length = 5 := by
    rw [horder.length_eq]
    rfl
  have hamounts : (distribution total order).map Prod.snd
      = order.map (fun kv => F64.mul total kv.2) := by
    rw [distribution_eq_map _ _ hn, List.map_map]
    rfl
  have hvals : (order.map (fun kv => F64.mul total kv.2)).map F64.val
      = order.map (fun kv => F64.val (F64.mul total kv.2)) := by
    rw [List.map_map]
    rfl
  rw [hamounts]
  refine ⟨?_, ?_⟩
  · intro a ha
    obtain ⟨kv, hkv, rfl⟩ := List.mem_map.mp ha
    exact hf kv hkv
  · rw [hvals, List.length_map, hlen]
    rw [hsum1, hlen, mul_one] at hs
    have h1 : F64.val total / 2 ^ 53 + ((5 : Nat) : ℚ) / 2 ^ 1075 ≤ ((5 : Nat) : ℚ) / 100 := by
      have : F64.val total / 2 ^ 53 ≤ 400000000000000 / 2 ^ 53 :=
        div_le_div_of_nonneg_right hle (by positivity)
      have h3 : (400000000000000 : ℚ) / 2 ^ 53 + ((5 : Nat) : ℚ) / 2 ^ 1075
          ≤ ((5 : Nat) : ℚ) / 100 := by norm_num
      linarith
    exact le_trans hs h1

/-- C9 (witness): total = 1000 with the table enumerated as written in the source. -/
theorem C9_fixed_sum_within_witness :
    amountsWithin (F64.ofNat 1000) ((distribution (F64.ofNat 1000) sectorDistribution).map Prod.snd) :=
  C9_fixed_sum_within (F64.ofNat 1000) sectorDistribution (List.Perm.refl _) (by decide)
    (by decide) (by decide!)

/-- C10 (counterexample): for the table `A:0.1, B:0.2, C:0.3` and total = 100.01, summing
the weights in the order A, B, C gives `C = ₹50.00`, and summing them in the order B, C, A
gives `C = ₹50.01`: the two outputs differ. -/
theorem C10_summation_order_changes_output :
    [("B", F64.ofRatio false 2 10), ("C", F64.ofRatio false 3 10), ("A", F64.ofRatio false 1 10)].Perm
      [("A", F64.ofRatio false 1 10), ("B", F64.ofRatio false 2 10), ("C", F64.ofRatio false 3 10)]
    ∧ BudgetBasedTaxDistributionHandler (some (F64.ofRatio false 10001 100))
        [("A", F64.ofRatio false 1 10), ("B", F64.ofRatio false 2 10), ("C", F64.ofRatio false 3 10)]
        [("A", F64.ofRatio false 1 10), ("B", F64.ofRatio false 2 10), ("C", F64.ofRatio false 3 10)]
      = ⟨200, .budgetDistribution (F64.ofRatio false 10001 100)
          [("A", "₹16.67"), ("B", "₹33.34"), ("C", "₹50.00")]⟩
    ∧ BudgetBasedTaxDistributionHandler (some (F64.ofRatio false 10001 100))
        [("B", F64.ofRatio false 2 10), ("C", F64.ofRatio false 3 10), ("A", F64.ofRatio false 1 10)]
        [("A", F64.ofRatio false 1 10), ("B", F64.ofRatio false 2 10), ("C", F64.ofRatio false 3 10)]
      = ⟨200, .budgetDistribution (F64.ofRatio false 10001 100)
          [("A", "₹16.67"), ("B", "₹33.34"), ("C", "₹50.01")]⟩ :=
  ⟨(List.perm_append_comm :
      ([("B", F64.ofRatio false 2 10), ("C", F64.ofRatio false 3 10)]
        ++ [("A", F64.ofRatio false 1 10)]).Perm
      ([("A", F64.ofRatio false 1 10)]
        ++ [("B", F64.ofRatio false 2 10), ("C", F64.ofRatio false 3 10)])),
    by decide, by decide⟩

/-- C10 (amended): the fixed strategy yields the same output map for every enumeration
of `sectorDistribution`.  The dynamic strategy yields the same output map for every
enumeration order of its allocation loop, and for any two summation loops that arrive at
the same float64 `totalBudget` (in particular for the same summation order); the sum
itself may depend on the order of summation.  The statement sent to the database by the
fixed strategy is the same for every enumeration. -/
theorem C10_output_determined (budgetData sumOrder1 sumOrder2 allocOrder1 allocOrder2
    order1 order2 : List (String × F64)) (total : F64)
    (hkeys : (budgetData.map Prod.fst).Nodup)
    (halloc1 : allocOrder1.Perm budgetData) (halloc2 : allocOrder2.Perm budgetData)
    (hsum : totalBudget sumOrder1 = totalBudget sumOrder2)
    (horder1 : order1.Perm sectorDistribution) (horder2 : order2.Perm sectorDistribution) :
    (∀ k, GoMap.get? (distribution total order1) k = GoMap.get? (distribution total order2) k)
    ∧ (∀ userID execOk, (TaxDistributionHandler userID (some total) order1 execOk).2
          = (TaxDistributionHandler userID (some total) order2 execOk).2)
    ∧ (∀ k, GoMap.get? (distributedTax (totalBudget sumOrder1) total allocOrder1) k
          = GoMap.get? (distributedTax (totalBudget sumOrder2) total allocOrder2) k) := by
  have hk : (sectorDistribution.map Prod.fst).Nodup := by decide
  have hn1 : (order1.map Prod.fst).Nodup := (horder1.map Prod.fst).nodup_iff.mpr hk
  have hn2 : (order2.map Prod.fst).Nodup := (horder2.map Prod.fst).nodup_iff.mpr hk
  have ha1 : (allocOrder1.map Prod.fst).Nodup := (halloc1.map Prod.fst).nodup_iff.mpr hkeys
  have ha2 : (allocOrder2.map Prod.fst).Nodup := (halloc2.map Prod.fst).nodup_iff.mpr hkeys
  have hfixed : ∀ k, GoMap.get? (distribution total order1) k
      = GoMap.get? (distribution total order2) k := by
    intro k
    rw [distribution_eq_map _ _ hn1, distribution_eq_map _ _ hn2,
      GoMap.get?_map (fun w => F64.mul total w), GoMap.get?_map (fun w => F64.mul total w),
      GoMap.get?_perm horder1 hn1 k, GoMap.get?_perm horder2 hn2 k]
  refine ⟨hfixed, ?_, ?_⟩
  · intro userID execOk
    cases userID with
    | none => rfl
    | some uid =>
      cases execOk <;> simp [TaxDistributionHandler, GoMap.index, hfixed]
  · intro k
    rw [← hsum, distributedTax_eq_map _ _ _ ha1, distributedTax_eq_map _ _ _ ha2,
      GoMap.get?_map (fun w => formattedAmount (roundedAmount w (totalBudget sumOrder1) total)),
      GoMap.get?_map (fun w => formattedAmount (roundedAmount w (totalBudget sumOrder1) total)),
      GoMap.get?_perm halloc1 ha1 k, GoMap.get?_perm halloc2 ha2 k]

/-- C10 (witness): the table `A:1, B:3` enumerated forwards and backwards. -/
theorem C10_output_determined_witness :
    (∀ k, GoMap.get? (distribution (F64.ofNat 100) sectorDistribution) k
          = GoMap.get? (distribution (F64.ofNat 100) sectorDistribution.reverse) k)
    ∧ (∀ userID execOk,
        (TaxDistributionHandler userID (some (F64.ofNat 100)) sectorDistribution execOk).2
          = (TaxDistributionHandler userID (some (F64.ofNat 100)) sectorDistribution.reverse
              execOk).2)
    ∧ (∀ k, GoMap.get? (distributedTax (totalBudget sampleBudget) (F64.ofNat 100) sampleBudget) k
          = GoMap.get? (distributedTax (totalBudget sampleBudget.reverse) (F64.ofNat 100)
              sampleBudget.reverse) k) :=
  C10_output_determined sampleBudget sampleBudget sampleBudget.reverse sampleBudget
    sampleBudget.reverse sectorDistribution sectorDistribution.reverse (F64.ofNat 100)
    (by decide) (List.Perm.refl _) (List.reverse_perm _) (by decide) (List.Perm.refl _)
    (List.reverse_perm _)

end TaxTrack
